import Mathlib

/-!
Verification of the parallel A* maze solver (`A_star.cpp`).

The development shallowly embeds the program: the grid is a list of rows of
integers (`0` = free), search nodes mirror `struct Node` with the owning
`parent` pointer turned into a nested value, and the `double` costs produced
by `heuristic` (square roots of integer radicands, and sums of such roots for
`g` and `f`) are represented exactly as lists of radicands, interpreted into
the reals by `costVal`.  The unsynchronized shared counters updated by
`solveMaze` under the OpenMP parallel loop are modeled by an explicit
read/write interleaving semantics.
-/

set_option maxHeartbeats 1000000

namespace AStar

/-- Movement offsets in the row direction, from
    `int dx[8] = { -1, 1, 0, 0, -1, -1, 1, 1 }`. -/
def dxs : List Int := [-1, 1, 0, 0, -1, -1, 1, 1]

/-- Movement offsets in the column direction, from
    `int dy[8] = { 0, 0, -1, 1, -1, 1, -1, 1 }`. -/
def dys : List Int := [0, 0, -1, 1, -1, 1, -1, 1]

/-- Radicand of the Euclidean heuristic: the source's
    `heuristic(x1, y1, x2, y2)` returns `sqrt(pow(x1-x2,2) + pow(y1-y2,2))`;
    that exact real value is `Real.sqrt` of this natural number. -/
def heuristicSq (x1 y1 x2 y2 : Int) : ℕ := ((x1 - x2) ^ 2 + (y1 - y2) ^ 2).toNat

/-- Read `grid[x][y]` (bounds are established by `isValid` before any use). -/
def gridAt (grid : List (List Int)) (x y : Int) : Int :=
  (grid.getD x.toNat []).getD y.toNat 0

/-- The source's `isValid`: position inside the `rows × cols` rectangle and the
    grid cell holds `0` (free). -/
def isValid (x y : Int) (rows cols : ℕ) (grid : List (List Int)) : Bool :=
  0 ≤ x && x < (rows : Int) && 0 ≤ y && y < (cols : Int) && gridAt grid x y == 0

/-- Exact representation of the nonnegative reals the search computes with: a
    list of radicands denoting the sum of their square roots.  The source's `g`
    is a running sum of `heuristic` step values and `f = g + h` adds one more
    root, so every cost is such a sum; addition of costs is concatenation. -/
abbrev Cost := List ℕ

/-- The real number a `Cost` denotes. -/
noncomputable def costVal (c : Cost) : ℝ := (c.map fun n => Real.sqrt n).sum

/-- Search node, mirroring
    `struct Node { int x, y; double f, g, h; Node* parent; }`.
    The `h` member always holds a single square root, so only its radicand is
    stored; `f` and `g` are exact sums of roots. -/
inductive SNode where
  | mk (x y : Int) (f g : Cost) (h : ℕ) (parent : Option SNode)

def SNode.x : SNode → Int
  | .mk x _ _ _ _ _ => x

def SNode.y : SNode → Int
  | .mk _ y _ _ _ _ => y

def SNode.f : SNode → Cost
  | .mk _ _ f _ _ _ => f

def SNode.g : SNode → Cost
  | .mk _ _ _ g _ _ => g

def SNode.hRad : SNode → ℕ
  | .mk _ _ _ _ h _ => h

def SNode.parent : SNode → Option SNode
  | .mk _ _ _ _ _ p => p

/-- The source's `reconstructPath`: collect coordinates following `parent`
    links from the goal node and reverse, i.e. produce the start-to-goal
    order directly. -/
def reconstructPath : SNode → List (Int × Int)
  | .mk x y _ _ _ none => [(x, y)]
  | .mk x y _ _ _ (some p) => reconstructPath p ++ [(x, y)]

/-! ### Exact comparison of costs

The source compares `double` priorities (`a->f > b->f` in the open list's
comparator and `fNew < allNodes[newX][newY]->f`).  The costs compared are
always of the shape `g ++ [h]` with every step radicand of `g` equal to 1 or 2
(steps between 8-neighbours), so after counting the 1s and 2s a comparison has
the form `a₁ + b₁·√2 + √n₁ < a₂ + b₂·√2 + √n₂`, which is decided exactly by
integer sign computations. -/

/-- Fold one radicand into the normal form `(a, b, m)` standing for
    `a + b·√2 + √m`:  `√0` contributes nothing, `√1 = 1`, `√2` counts into `b`,
    and the (at most one) remaining radicand occupies the third slot. -/
def normStep : ℕ × ℕ × ℕ → ℕ → ℕ × ℕ × ℕ
  | (a, b, m), 0 => (a, b, m)
  | (a, b, m), 1 => (a + 1, b, m)
  | (a, b, m), 2 => (a, b + 1, m)
  | (a, b, m), n => if m = 0 then (a, b, n) else (a, b, m)

/-- Normal form of a cost. -/
def norm (c : Cost) : ℕ × ℕ × ℕ := c.foldl normStep (0, 0, 0)

/-- The real number a normal form denotes. -/
noncomputable def triVal : ℕ × ℕ × ℕ → ℝ
  | (a, b, m) => (a : ℝ) + (b : ℝ) * Real.sqrt 2 + Real.sqrt m

/-- Sign of `p + q·√2`, computed over the integers. -/
def sgnQuad (p q : Int) : Int :=
  if 0 ≤ p ∧ 0 ≤ q then (if p = 0 ∧ q = 0 then 0 else 1)
  else if p ≤ 0 ∧ q ≤ 0 then -1
  else if 0 < p then Int.sign (p ^ 2 - 2 * q ^ 2)
  else Int.sign (2 * q ^ 2 - p ^ 2)

/-- Sign of `P + Q·√2 + 2·√M`, computed over the integers. -/
def sgnQR (P Q : Int) (M : ℕ) : Int :=
  if sgnQuad P Q = 0 then (if M = 0 then 0 else 1)
  else if sgnQuad P Q = 1 then 1
  else sgnQuad (4 * (M : Int) - P ^ 2 - 2 * Q ^ 2) (-(2 * P * Q))

/-- Decide `a₁ + b₁·√2 + √n₁ < a₂ + b₂·√2 + √n₂` exactly. -/
def ltTriple : ℕ × ℕ × ℕ → ℕ × ℕ × ℕ → Bool
  | (a1, b1, n1), (a2, b2, n2) =>
    let p : Int := (a1 : Int) - a2
    let q : Int := (b1 : Int) - b2
    let sL := sgnQuad p q
    let sR := Int.sign ((n2 : Int) - n1)
    if sL < sR then true
    else if sR < sL then false
    else if sL = 0 then false
    else if sL = 1 then
      sgnQR (p ^ 2 + 2 * q ^ 2 - n1 - n2) (2 * p * q) (n1 * n2) < 0
    else
      sgnQR (p ^ 2 + 2 * q ^ 2 - n1 - n2) (2 * p * q) (n1 * n2) > 0

/-- Exact strict comparison of two costs: the embedding of `<` on the `double`
    priorities of the source. -/
def ltCost (c1 c2 : Cost) : Bool := ltTriple (norm c1) (norm c2)

/-- Extraction from the open list: `openList.top()`/`pop()` on the source's
    `priority_queue` with comparator `a->f > b->f` yields a node of minimal
    `f` (ties broken deterministically by the container; here: the earliest
    minimal element) together with the remaining queue contents. -/
def extractMin : List SNode → Option (SNode × List SNode)
  | [] => none
  | n :: ns =>
    match extractMin ns with
    | none => some (n, [])
    | some (m, rest) => if ltCost m.f n.f then some (m, n :: rest) else some (n, ns)

/-- State of one `aStarSearch` call: the grid (captured by reference in the
    source), the `closed` matrix, the `allNodes` matrix and the open list. -/
structure AState where
  grid : List (List Int)
  closed : List (List Bool)
  allNodes : List (List (Option SNode))
  openList : List SNode

/-- Write `m[x][y] := v` in a rectangular list-of-lists. -/
def set2d {α : Type} (m : List (List α)) (x y : Int) (v : α) : List (List α) :=
  m.set x.toNat ((m.getD x.toNat []).set y.toNat v)

/-- Read `m[x][y]` from a rectangular list-of-lists. -/
def get2d {α : Type} (m : List (List α)) (x y : Int) (d : α) : α :=
  (m.getD x.toNat []).getD y.toNat d

/-- One iteration of the source's neighbour loop, for direction `i`:
    skip the neighbour if it is out of bounds, blocked or closed; otherwise
    compute `gNew = g + heuristic(current, neighbour)`,
    `hNew = heuristic(neighbour, goal)`, `fNew = gNew + hNew`, and if no node
    is recorded for the cell or `fNew` beats the recorded `f`, record a new
    node with parent `current` and push it on the open list. -/
def expandDir (rows cols : ℕ) (goal : Int × Int) (current : SNode)
    (st : AState) (i : ℕ) : AState :=
  let newX := current.x + dxs.getD i 0
  let newY := current.y + dys.getD i 0
  if !(isValid newX newY rows cols st.grid) || get2d st.closed newX newY false then st
  else
    let gNew : Cost := current.g ++ [heuristicSq current.x current.y newX newY]
    let hNew : ℕ := heuristicSq newX newY goal.1 goal.2
    let fNew : Cost := gNew ++ [hNew]
    let doPush :=
      match get2d st.allNodes newX newY none with
      | none => true
      | some stored => ltCost fNew stored.f
    if doPush then
      let nd := SNode.mk newX newY fNew gNew hNew (some current)
      { st with allNodes := set2d st.allNodes newX newY (some nd),
                openList := nd :: st.openList }
    else st

/-- The full 8-direction neighbour loop of one expansion. -/
def expandAll (rows cols : ℕ) (goal : Int × Int) (current : SNode)
    (st : AState) : AState :=
  (List.range 8).foldl (expandDir rows cols goal current) st

/-- The source's `while (!openList.empty())` loop, with explicit fuel bounding
    the number of iterations (the C++ loop terminates; a theorem about a
    completed run quantifies over sufficient fuel).  Returns the goal node
    (`goalNode` in the source) if found, together with the final state. -/
def aLoop (rows cols : ℕ) (goal : Int × Int) : ℕ → AState → Option SNode × AState
  | 0, st => (none, st)
  | Nat.succ fuel, st =>
    match extractMin st.openList with
    | none => (none, st)
    | some (current, rest) =>
      if current.x = goal.1 && current.y = goal.2 then
        (some current, { st with openList := rest })
      else
        let st1 : AState :=
          { st with openList := rest,
                    closed := set2d st.closed current.x current.y true }
        aLoop rows cols goal fuel (expandAll rows cols goal current st1)

/-- The source's `aStarSearch`: build the start node (`f = 0`, `g = 0`,
    `h = heuristic(start, goal)`, no parent), run the loop, and reconstruct
    the path from the goal node if one was found, else return the empty path. -/
def aStarSearch (fuel : ℕ) (grid : List (List Int)) (start goal : Int × Int) :
    List (Int × Int) :=
  let rows := grid.length
  let cols := (grid.headD []).length
  let startNode : SNode :=
    SNode.mk start.1 start.2 [] [] (heuristicSq start.1 start.2 goal.1 goal.2) none
  let st0 : AState :=
    { grid := grid,
      closed := List.replicate rows (List.replicate cols false),
      allNodes :=
        set2d (List.replicate rows (List.replicate cols (none : Option SNode)))
          start.1 start.2 (some startNode),
      openList := [startNode] }
  match (aLoop rows cols goal fuel st0).1 with
  | some goalNode => reconstructPath goalNode
  | none => []

/-! ### Statistics accumulation (`solveMaze` counter updates and `main`) -/

/-- The three shared global counters printed by `main`. -/
structure GlobalStats where
  mazeAttempts : ℕ
  totalPathLength : ℕ
  successfulMazes : ℕ
deriving DecidableEq

/-- The counter updates one completed `solveMaze` call performs, given the
    length of the path its search returned:
    `mazeAttempts++; totalPathLength += pathLen; if (pathLen > 0) successfulMazes++;`. -/
def solveMazeUpdate (s : GlobalStats) (pathLen : ℕ) : GlobalStats :=
  { mazeAttempts := s.mazeAttempts + 1,
    totalPathLength := s.totalPathLength + pathLen,
    successfulMazes :=
      if 0 < pathLen then s.successfulMazes + 1 else s.successfulMazes }

/-- Sequential accumulation of the per-task counter updates over a list of
    per-task path lengths, starting from the zero-initialized globals: the
    race-free reduction of the per-task results. -/
def reduceStats (pathLens : List ℕ) : GlobalStats :=
  pathLens.foldl solveMazeUpdate ⟨0, 0, 0⟩

/-- Model of `main`'s batch: `main` fixes a thread count, hands it to
    `omp_set_num_threads`, and runs the parallel loop over the maze list.  It
    contains no check on the thread count, and an OpenMP `parallel for`
    executes every loop iteration exactly once whatever the size of the thread
    team, so every task runs and updates the counters for any `numThreads`
    value.  The per-task path lengths are a parameter (the source draws random
    grids before searching). -/
def runBatch (numThreads : Int) (pathLens : List ℕ) : GlobalStats :=
  reduceStats pathLens

/-! ### Interleaving model of the unsynchronized counter updates

`mazeAttempts++` (and the other two counter updates) on a shared non-atomic
`int` is a read of the shared variable followed by a write of the read value
plus one; the OpenMP parallel loop runs these from several threads with no
synchronization. -/

/-- Progress of one task through its unsynchronized `counter++`. -/
inductive IncPC where
  | start
  | readDone (r : ℕ)
  | finished
deriving DecidableEq

/-- Shared counter plus each task's progress. -/
structure RaceState where
  counter : ℕ
  tasks : List IncPC
deriving DecidableEq

/-- Initial state for `k` concurrent increments of a zeroed counter. -/
def raceInit (k : ℕ) : RaceState :=
  { counter := 0, tasks := List.replicate k .start }

/-- Let task `t` take its next step: its read (load the shared counter) or its
    write (store its read value plus one). -/
def raceStep (s : RaceState) (t : ℕ) : RaceState :=
  match s.tasks.getD t .finished with
  | .start => { s with tasks := s.tasks.set t (.readDone s.counter) }
  | .readDone r => { counter := r + 1, tasks := s.tasks.set t .finished }
  | .finished => s

/-- Run a schedule: the list of task indices, each entry letting that task
    take its next step. -/
def raceExec (sched : List ℕ) (s : RaceState) : RaceState :=
  sched.foldl raceStep s

/-! ### Specification-side definitions -/

/-- A radicand that is not one of `0, 1, 2` (whose root cannot be folded into
    the `a + b·√2` part of the normal form). -/
def bigRad (n : ℕ) : Bool := decide (3 ≤ n)

/-- Costs the normal form represents exactly: at most one radicand beyond
    `0, 1, 2`.  Every cost the search builds has this shape: `g` is a sum of
    unit-offset steps (radicand 1 or 2) and `f = g + h` adds the single
    heuristic root. -/
def NormOk (c : Cost) : Prop := c.countP bigRad ≤ 1

/-- Two coordinates differ by exactly one of the 8 unit offsets. -/
def Adj (u v : Int × Int) : Prop :=
  ∃ i : Fin 8, v.1 = u.1 + dxs.getD i 0 ∧ v.2 = u.2 + dys.getD i 0

/-- Octile norm of a displacement of `a` rows and `b` columns: the minimum
    cost of an 8-connected path realizing it, with unit orthogonal steps and
    `√2` diagonal steps. -/
noncomputable def octN (a b : ℕ) : ℝ :=
  ((max a b - min a b : ℕ) : ℝ) + (min a b : ℝ) * Real.sqrt 2

/-- Octile distance between two cells. -/
noncomputable def octD (u v : Int × Int) : ℝ :=
  octN (u.1 - v.1).natAbs (u.2 - v.2).natAbs

/-- Euclidean distance between two cells: the exact real value the source's
    `heuristic` computes. -/
noncomputable def eucD (u v : Int × Int) : ℝ :=
  Real.sqrt ((heuristicSq u.1 u.2 v.1 v.2 : ℕ) : ℝ)

/-- Number of steps of a cost-optimal 8-connected path between two cells. -/
def octSteps (s g : Int × Int) : ℕ :=
  max (g.1 - s.1).natAbs (g.2 - s.2).natAbs

/-- Canonical cost-optimal path from `s` to `g`: after `t` steps each
    coordinate has advanced by `min t |Δ|` in the direction of its delta
    (diagonal steps first, then straight ones). -/
def cpath (s g : Int × Int) (t : ℕ) : Int × Int :=
  (s.1 + Int.sign (g.1 - s.1) * min (t : Int) ((g.1 - s.1).natAbs : Int),
   s.2 + Int.sign (g.2 - s.2) * min (t : Int) ((g.2 - s.2).natAbs : Int))

/-- A coordinate inside the `rows × cols` rectangle. -/
def inB (rows cols : ℕ) (p : Int × Int) : Prop :=
  0 ≤ p.1 ∧ p.1 < (rows : Int) ∧ 0 ≤ p.2 ∧ p.2 < (cols : Int)

/-- Well-formed search node: its parent chain starts at a parentless node
    sitting on `start`, and each link moves by one of the 8 offsets. -/
inductive WF (start : Int × Int) : SNode → Prop where
  | root (f g : Cost) (h : ℕ) : WF start (.mk start.1 start.2 f g h none)
  | step (p : SNode) (i : ℕ) (hi : i < 8) (f g : Cost) (h : ℕ) (hp : WF start p) :
      WF start (.mk (p.x + dxs.getD i 0) (p.y + dys.getD i 0) f g h (some p))


/-- Fully well-formed node relative to a `start`/`goal` pair: the parent chain
    starts at a parentless node on `start`, each link moves by one of the 8
    offsets, `g` accumulates exactly the step radicands, `h` is the heuristic
    radicand to `goal`, and `f = g ++ [h]` — except at the start node, which
    the source builds with `f = 0`, `g = 0`. -/
inductive WFG (start goal : Int × Int) : SNode → Prop where
  | root : WFG start goal
      (.mk start.1 start.2 [] [] (heuristicSq start.1 start.2 goal.1 goal.2) none)
  | step (p : SNode) (i : ℕ) (hi : i < 8) (hp : WFG start goal p) :
      WFG start goal
        (.mk (p.x + dxs.getD i 0) (p.y + dys.getD i 0)
          ((p.g ++ [heuristicSq p.x p.y (p.x + dxs.getD i 0) (p.y + dys.getD i 0)]) ++
            [heuristicSq (p.x + dxs.getD i 0) (p.y + dys.getD i 0) goal.1 goal.2])
          (p.g ++ [heuristicSq p.x p.y (p.x + dxs.getD i 0) (p.y + dys.getD i 0)])
          (heuristicSq (p.x + dxs.getD i 0) (p.y + dys.getD i 0) goal.1 goal.2)
          (some p))


/-- The node the neighbour loop creates for direction `i` from node `cur`
    (position, exact `g`, heuristic radicand and `f = g ++ [h]`). -/
def mkNbr (goal : Int × Int) (cur : SNode) (i : ℕ) : SNode :=
  SNode.mk (cur.x + dxs.getD i 0) (cur.y + dys.getD i 0)
    ((cur.g ++ [heuristicSq cur.x cur.y (cur.x + dxs.getD i 0) (cur.y + dys.getD i 0)]) ++
      [heuristicSq (cur.x + dxs.getD i 0) (cur.y + dys.getD i 0) goal.1 goal.2])
    (cur.g ++ [heuristicSq cur.x cur.y (cur.x + dxs.getD i 0) (cur.y + dys.getD i 0)])
    (heuristicSq (cur.x + dxs.getD i 0) (cur.y + dys.getD i 0) goal.1 goal.2)
    (some cur)

/-- Row/column structure of a 2-D list state. -/
def Rect {α : Type} (rows cols : ℕ) (m : List (List α)) : Prop :=
  m.length = rows ∧ ∀ row ∈ m, row.length = cols

/-- An obstacle-free rectangular grid: `rows` rows, each of length `cols`,
    every cell `0` (free). -/
structure FreeGrid (rows cols : ℕ) (grid : List (List Int)) : Prop where
  rows_eq : grid.length = rows
  cols_eq : ∀ row ∈ grid, row.length = cols
  free : ∀ row ∈ grid, ∀ v ∈ row, v = 0

/-- Invariant of the source's search loop on an obstacle-free grid.  It ties
    the open list, the closed matrix and the per-cell node store together:
    every stored or open node is fully well-formed ([WFG]), unclosed recorded
    nodes sit on the open list, the start cell's record keeps the source's
    `g = f = 0`, the goal cell is never closed before the loop returns, and
    every in-bounds neighbour `v` of a closed cell `c` is closed or recorded
    with `g`-cost at most `octD start c + dist(c, v)` — the consistency bound
    driving the optimality argument. -/
structure GInv (rows cols : ℕ) (grid : List (List Int)) (start goal : Int × Int)
    (st : AState) : Prop where
  grid_eq : st.grid = grid
  rect_closed : Rect rows cols st.closed
  rect_nodes : Rect rows cols st.allNodes
  wf_open : ∀ n ∈ st.openList, WFG start goal n ∧ inB rows cols (n.x, n.y)
  rec_wf : ∀ x y : Int, 0 ≤ x → 0 ≤ y → ∀ nd, get2d st.allNodes x y none = some nd →
    WFG start goal nd ∧ nd.x = x ∧ nd.y = y ∧ inB rows cols (x, y)
  rec_open : ∀ x y : Int, 0 ≤ x → 0 ≤ y → get2d st.closed x y false = false →
    ∀ nd, get2d st.allNodes x y none = some nd → nd ∈ st.openList
  start_rec : get2d st.closed start.1 start.2 false = false →
    ∃ nd, get2d st.allNodes start.1 start.2 none = some nd ∧ nd.g = [] ∧ nd.f = []
  frontier : ∀ x y : Int, inB rows cols (x, y) → get2d st.closed x y false = true →
    ∀ i, i < 8 → inB rows cols (x + dxs.getD i 0, y + dys.getD i 0) →
    (get2d st.closed (x + dxs.getD i 0) (y + dys.getD i 0) false = true ∨
      ∃ nd, get2d st.allNodes (x + dxs.getD i 0) (y + dys.getD i 0) none = some nd ∧
        costVal nd.g ≤ octD start (x, y) +
          Real.sqrt ((heuristicSq x y (x + dxs.getD i 0) (y + dys.getD i 0) : ℕ) : ℝ))
  goal_open : get2d st.closed goal.1 goal.2 false = false

/-! ## Theorems -/

lemma foldl_solveMazeUpdate (l : List ℕ) : ∀ s : GlobalStats,
    l.foldl solveMazeUpdate s =
      ⟨s.mazeAttempts + l.length, s.totalPathLength + l.sum,
        s.successfulMazes + l.countP (fun len => decide (0 < len))⟩ := by
  induction l with
  | nil => intro s; simp
  | cons a l ih =>
    intro s
    simp only [List.foldl_cons, ih, List.length_cons, List.sum_cons, List.countP_cons,
      solveMazeUpdate]
    by_cases ha : 0 < a <;> simp [ha] <;> constructor <;> omega

/-- C3: the statistics reduction over the per-task results satisfies
    `attempts = count(results)`, `totalLength = sum(pathLength)`,
    `successes = count(results with found)` — the source tests success by
    `pathLen > 0`, i.e. `found` is "the returned path is non-empty" — and
    consequently `successes ≤ attempts`. -/
theorem c3_stats_reduction (results : List ℕ) :
    (reduceStats results).mazeAttempts = results.length ∧
    (reduceStats results).totalPathLength = results.sum ∧
    (reduceStats results).successfulMazes =
      results.countP (fun len => decide (0 < len)) ∧
    (reduceStats results).successfulMazes ≤ (reduceStats results).mazeAttempts := by
  unfold reduceStats
  rw [foldl_solveMazeUpdate]
  refine ⟨by simp, by simp, by simp, ?_⟩
  simpa using List.countP_le_length _

/-- C1: the source updates the shared counters with no mutual exclusion
    (`mazeAttempts++` and friends run from the OpenMP parallel loop
    unsynchronized), so two concurrently running tasks can interleave their
    read and write steps and lose an update: the schedule
    read₀, read₁, write₀, write₁ leaves the counter at 1 after two completed
    tasks, while the serialized schedule (pool size 1) leaves it at 2.  The
    resulting `GlobalStats` is therefore not identical across pool sizes. -/
theorem c1_lost_update_on_shared_counter :
    (raceExec [0, 1, 0, 1] (raceInit 2)).counter = 1 ∧
    (raceExec [0, 0, 1, 1] (raceInit 2)).counter = 2 ∧
    (raceExec [0, 1, 0, 1] (raceInit 2)).counter ≠
      (raceExec [0, 0, 1, 1] (raceInit 2)).counter := by
  decide

/-- C8: `main` performs no check on the thread count: with `numThreads = 0`
    (a non-positive pool size) the batch still runs every task and reports no
    configuration error — the attempts counter ends at 3 for the three mazes,
    and the resulting statistics coincide with those of the default pool
    size 4. -/
theorem c8_no_pool_size_check :
    (runBatch 0 [5, 0, 7]).mazeAttempts = 3 ∧
    runBatch 0 [5, 0, 7] = runBatch 4 [5, 0, 7] := by
  decide

/-- C7: the source validates neither `start` nor `goal`: on the grid
    `[[1, 0]]` whose start cell `(0,0)` is blocked, `aStarSearch` does not
    report any configuration error — it runs the search and returns the
    path `[(0,0), (0,1)]` beginning on the blocked cell. -/
theorem c7_searches_despite_blocked_start :
    gridAt [[1, 0]] 0 0 ≠ 0 ∧
    aStarSearch 2 [[1, 0]] (0, 0) (0, 1) = [(0, 0), (0, 1)] := by
  decide

lemma expandDir_grid (rows cols : ℕ) (goal : Int × Int) (cur : SNode)
    (st : AState) (i : ℕ) : (expandDir rows cols goal cur st i).grid = st.grid := by
  unfold expandDir
  dsimp only
  split
  · rfl
  · split
    · rfl
    · rfl

lemma foldl_expandDir_grid (rows cols : ℕ) (goal : Int × Int) (cur : SNode)
    (l : List ℕ) : ∀ st : AState,
    (l.foldl (expandDir rows cols goal cur) st).grid = st.grid := by
  induction l with
  | nil => intro st; rfl
  | cons a l ih => intro st; rw [List.foldl_cons, ih, expandDir_grid]

/-- C9: a search run never mutates the grid: across any number of iterations
    of the search loop the `grid` component of the state is untouched (the
    loop only rewrites `closed`, `allNodes` and the open list, all of which
    are created by and private to the one `aStarSearch` call). -/
theorem c9_grid_never_mutated (rows cols : ℕ) (goal : Int × Int) :
    ∀ (fuel : ℕ) (st : AState), ((aLoop rows cols goal fuel st).2).grid = st.grid := by
  intro fuel
  induction fuel with
  | zero => intro st; rfl
  | succ n ih =>
    intro st
    rw [aLoop]
    cases hext : extractMin st.openList with
    | none => rfl
    | some pr =>
      dsimp only
      split
      · rfl
      · rw [ih]
        unfold expandAll
        rw [foldl_expandDir_grid]

lemma aStar_self (grid : List (List Int)) (c : Int × Int) (fuel : ℕ)
    (hfuel : 1 ≤ fuel) : aStarSearch fuel grid c c = [c] := by
  obtain ⟨n, rfl⟩ : ∃ n, fuel = n + 1 := ⟨fuel - 1, by omega⟩
  simp [aStarSearch, aLoop, extractMin, reconstructPath, SNode.x, SNode.y]

/-- C6: searching with `start = goal = c` (a valid, free coordinate) returns
    the single-coordinate path `[c]` on the first extraction from the open
    set: one unit of fuel suffices for any grid. -/
theorem c6_start_eq_goal_immediate (grid : List (List Int)) (c : Int × Int)
    (fuel : ℕ) (hx : 0 ≤ c.1) (hx2 : c.1 < (grid.length : Int)) (hy : 0 ≤ c.2)
    (hy2 : c.2 < ((grid.headD []).length : Int)) (hfree : gridAt grid c.1 c.2 = 0)
    (hfuel : 1 ≤ fuel) : aStarSearch fuel grid c c = [c] :=
  aStar_self grid c fuel hfuel

theorem c6_start_eq_goal_immediate_witness :
    (0 : Int) ≤ 0 ∧ gridAt [[0]] 0 0 = 0 ∧ aStarSearch 1 [[0]] (0, 0) (0, 0) = [(0, 0)] :=
  ⟨le_refl 0, by decide,
    c6_start_eq_goal_immediate [[0]] (0, 0) 1 (by decide) (by decide) (by decide)
      (by decide) (by decide) (by decide)⟩

/-- C10: the search never validates that the start or goal cell is free: for
    any in-bounds coordinate `c` lying on a blocked cell, the search with
    `start = goal = c` still returns `[c]`, because cell validity is checked
    only for neighbours during expansion and never for the initial node. -/
theorem c10_blocked_start_still_returned (grid : List (List Int)) (c : Int × Int)
    (fuel : ℕ) (hx : 0 ≤ c.1) (hx2 : c.1 < (grid.length : Int)) (hy : 0 ≤ c.2)
    (hy2 : c.2 < ((grid.headD []).length : Int)) (hblocked : gridAt grid c.1 c.2 ≠ 0)
    (hfuel : 1 ≤ fuel) : aStarSearch fuel grid c c = [c] :=
  aStar_self grid c fuel hfuel

theorem c10_blocked_start_still_returned_witness :
    gridAt [[1]] 0 0 ≠ 0 ∧ aStarSearch 1 [[1]] (0, 0) (0, 0) = [(0, 0)] :=
  ⟨by decide,
    c10_blocked_start_still_returned [[1]] (0, 0) 1 (by decide) (by decide) (by decide)
      (by decide) (by decide) (by decide)⟩

lemma reconstructPath_ne_nil (n : SNode) : reconstructPath n ≠ [] := by
  cases n with
  | mk x y f g h p => cases p <;> simp [reconstructPath]

lemma WF.path_props {start : Int × Int} {n : SNode} (hn : WF start n) :
    (reconstructPath n).head? = some start ∧
    (reconstructPath n).getLast? = some (n.x, n.y) ∧
    List.Chain' Adj (reconstructPath n) := by
  induction hn with
  | root f g h => simp [reconstructPath, SNode.x, SNode.y]
  | step p i hi f g h hp ih =>
    obtain ⟨ih1, ih2, ih3⟩ := ih
    refine ⟨?_, ?_, ?_⟩
    · rw [reconstructPath]
      cases hl : reconstructPath p with
      | nil => exact absurd hl (reconstructPath_ne_nil p)
      | cons a as => rw [hl] at ih1; simpa using ih1
    · rw [reconstructPath, List.getLast?_concat, SNode.x, SNode.y]
    · rw [reconstructPath]
      rw [List.chain'_append]
      refine ⟨ih3, List.chain'_singleton _, ?_⟩
      intro u hu v hv
      rw [ih2] at hu
      simp only [List.head?_cons, Option.mem_def, Option.some.injEq] at hu hv
      subst hu
      subst hv
      exact ⟨⟨i, hi⟩, rfl, rfl⟩

lemma extractMin_mem : ∀ {l : List SNode} {m : SNode} {rest : List SNode},
    extractMin l = some (m, rest) → m ∈ l := by
  intro l
  induction l with
  | nil => intro m rest h; simp [extractMin] at h
  | cons n ns ih =>
    intro m rest h
    rw [extractMin] at h
    cases hrec : extractMin ns with
    | none =>
      rw [hrec] at h
      simp only [Option.some.injEq, Prod.mk.injEq] at h
      exact h.1 ▸ List.mem_cons_self _ _
    | some pr =>
      obtain ⟨m', rest'⟩ := pr
      rw [hrec] at h
      dsimp only at h
      split at h
      · simp only [Option.some.injEq, Prod.mk.injEq] at h
        exact List.mem_cons_of_mem _ (h.1 ▸ ih hrec)
      · simp only [Option.some.injEq, Prod.mk.injEq] at h
        exact h.1 ▸ List.mem_cons_self _ _

lemma extractMin_rest_mem : ∀ {l : List SNode} {m : SNode} {rest : List SNode},
    extractMin l = some (m, rest) → ∀ x ∈ rest, x ∈ l := by
  intro l
  induction l with
  | nil => intro m rest h; simp [extractMin] at h
  | cons n ns ih =>
    intro m rest h
    rw [extractMin] at h
    cases hrec : extractMin ns with
    | none =>
      rw [hrec] at h
      simp only [Option.some.injEq, Prod.mk.injEq] at h
      rw [← h.2]
      intro x hx
      simp at hx
    | some pr =>
      obtain ⟨m', rest'⟩ := pr
      rw [hrec] at h
      dsimp only at h
      split at h
      · simp only [Option.some.injEq, Prod.mk.injEq] at h
        rw [← h.2]
        intro x hx
        rcases List.mem_cons.mp hx with rfl | hx
        · exact List.mem_cons_self _ _
        · exact List.mem_cons_of_mem _ (ih hrec x hx)
      · simp only [Option.some.injEq, Prod.mk.injEq] at h
        rw [← h.2]
        intro x hx
        exact List.mem_cons_of_mem _ hx

lemma expandDir_wf {start : Int × Int} (rows cols : ℕ) (goal : Int × Int)
    {cur : SNode} {st : AState} {i : ℕ} (hi : i < 8)
    (hcur : WF start cur) (hop : ∀ n ∈ st.openList, WF start n) :
    ∀ n ∈ (expandDir rows cols goal cur st i).openList, WF start n := by
  unfold expandDir
  dsimp only
  split
  · exact hop
  · split
    · intro n hn
      rcases List.mem_cons.mp hn with rfl | hn
      · exact WF.step cur i hi _ _ _ hcur
      · exact hop n hn
    · exact hop

lemma foldl_expandDir_wf {start : Int × Int} (rows cols : ℕ) (goal : Int × Int)
    {cur : SNode} (hcur : WF start cur) :
    ∀ (l : List ℕ), (∀ j ∈ l, j < 8) → ∀ (st : AState),
      (∀ n ∈ st.openList, WF start n) →
      ∀ n ∈ (l.foldl (expandDir rows cols goal cur) st).openList, WF start n := by
  intro l
  induction l with
  | nil => intro _ st hop; exact hop
  | cons a l ih =>
    intro hl st hop
    rw [List.foldl_cons]
    exact ih (fun j hj => hl j (List.mem_cons_of_mem _ hj)) _
      (expandDir_wf rows cols goal (hl a (List.mem_cons_self _ _)) hcur hop)

lemma aLoop_goal_wf {start : Int × Int} (rows cols : ℕ) (goal : Int × Int) :
    ∀ (fuel : ℕ) (st : AState), (∀ n ∈ st.openList, WF start n) →
    ∀ gn, (aLoop rows cols goal fuel st).1 = some gn →
      WF start gn ∧ gn.x = goal.1 ∧ gn.y = goal.2 := by
  intro fuel
  induction fuel with
  | zero => intro st hop gn h; simp [aLoop] at h
  | succ k ih =>
    intro st hop gn h
    rw [aLoop] at h
    cases hext : extractMin st.openList with
    | none => rw [hext] at h; simp at h
    | some pr =>
      obtain ⟨current, rest⟩ := pr
      rw [hext] at h
      dsimp only at h
      split at h
      · rename_i hcond
        simp only [Option.some.injEq] at h
        subst h
        simp only [Bool.and_eq_true, decide_eq_true_eq] at hcond
        exact ⟨hop current (extractMin_mem hext), hcond.1, hcond.2⟩
      · refine ih _ ?_ gn h
        apply foldl_expandDir_wf rows cols goal
          (hop current (extractMin_mem hext))
        · intro j hj; exact List.mem_range.mp hj
        · intro n hn
          exact hop n (extractMin_rest_mem hext n hn)

/-- C2: whenever the search returns a non-empty path, its first coordinate is
    `start`, its last coordinate is `goal`, and every pair of consecutive
    coordinates differs by exactly one of the 8 unit offsets. -/
theorem c2_path_endpoints_and_steps (fuel : ℕ) (grid : List (List Int))
    (start goal : Int × Int) (hne : aStarSearch fuel grid start goal ≠ []) :
    (aStarSearch fuel grid start goal).head? = some start ∧
    (aStarSearch fuel grid start goal).getLast? = some goal ∧
    List.Chain' Adj (aStarSearch fuel grid start goal) := by
  unfold aStarSearch at hne ⊢
  dsimp only at hne ⊢
  cases hres : (aLoop grid.length (grid.headD []).length goal fuel
      { grid := grid,
        closed := List.replicate grid.length (List.replicate (grid.headD []).length false),
        allNodes :=
          set2d (List.replicate grid.length
            (List.replicate (grid.headD []).length (none : Option SNode)))
            start.1 start.2
            (some (SNode.mk start.1 start.2 [] []
              (heuristicSq start.1 start.2 goal.1 goal.2) none)),
        openList := [SNode.mk start.1 start.2 [] []
          (heuristicSq start.1 start.2 goal.1 goal.2) none] }).1 with
  | none => rw [hres] at hne; simp at hne
  | some gn =>
    dsimp only at hne ⊢
    have hstart : ∀ n ∈ [SNode.mk start.1 start.2 [] []
        (heuristicSq start.1 start.2 goal.1 goal.2) none], WF start n := by
      intro n hn
      rcases List.mem_singleton.mp hn with rfl
      exact WF.root _ _ _
    have hwf := aLoop_goal_wf grid.length (grid.headD []).length goal fuel _ hstart gn hres
    obtain ⟨h1, h2, h3⟩ := hwf.1.path_props
    refine ⟨h1, ?_, h3⟩
    rw [h2, hwf.2.1, hwf.2.2]

lemma sqrt2_pos : (0 : ℝ) < Real.sqrt 2 := Real.sqrt_pos.mpr (by norm_num)

lemma sq_sqrt2 : Real.sqrt 2 ^ 2 = 2 := Real.sq_sqrt (by norm_num)

lemma int_sq_ne_two_mul_sq {p q : Int} (hp : p ≠ 0) : p ^ 2 ≠ 2 * q ^ 2 := by
  intro h
  have hq : q ≠ 0 := by rintro rfl; simp at h; exact hp h
  apply irrational_sqrt_two
  refine ⟨|(p : ℚ) / (q : ℚ)|, ?_⟩
  have hq' : (q : ℝ) ≠ 0 := Int.cast_ne_zero.mpr hq
  have h2 : ((p : ℝ) / (q : ℝ)) ^ 2 = 2 := by
    field_simp
    exact_mod_cast h
  have habs : Real.sqrt 2 = |(p : ℝ) / (q : ℝ)| := by
    rw [← h2, Real.sqrt_sq_eq_abs]
  rw [habs]
  push_cast
  rfl

lemma sgnQuad_elem (p q : Int) :
    sgnQuad p q = -1 ∨ sgnQuad p q = 0 ∨ sgnQuad p q = 1 := by
  unfold sgnQuad
  split_ifs
  · right; left; rfl
  · right; right; rfl
  · left; rfl
  · rcases Int.lt_trichotomy (p ^ 2 - 2 * q ^ 2) 0 with h | h | h
    · left; exact Int.sign_eq_neg_one_iff_neg.mpr h
    · right; left; exact Int.sign_eq_zero_iff_zero.mpr h
    · right; right; exact Int.sign_eq_one_iff_pos.mpr h
  · rcases Int.lt_trichotomy (2 * q ^ 2 - p ^ 2) 0 with h | h | h
    · left; exact Int.sign_eq_neg_one_iff_neg.mpr h
    · right; left; exact Int.sign_eq_zero_iff_zero.mpr h
    · right; right; exact Int.sign_eq_one_iff_pos.mpr h

lemma sgnQuad_pos {p q : Int} (h : sgnQuad p q = 1) :
    0 < (p : ℝ) + (q : ℝ) * Real.sqrt 2 := by
  have hs2 := sq_sqrt2
  have hs0 := sqrt2_pos
  unfold sgnQuad at h
  by_cases hA : 0 ≤ p ∧ 0 ≤ q
  · rw [if_pos hA] at h
    by_cases hB : p = 0 ∧ q = 0
    · rw [if_pos hB] at h; exact absurd h (by decide)
    · rcases (by omega : 0 < p ∨ 0 < q) with hp' | hq'
      · have hpr : (0 : ℝ) < p := by exact_mod_cast hp'
        have hqr : (0 : ℝ) ≤ q := by exact_mod_cast hA.2
        nlinarith [mul_nonneg hqr hs0.le]
      · have hqr : (0 : ℝ) < q := by exact_mod_cast hq'
        have hpr : (0 : ℝ) ≤ p := by exact_mod_cast hA.1
        nlinarith [mul_pos hqr hs0]
  · rw [if_neg hA] at h
    by_cases hC : p ≤ 0 ∧ q ≤ 0
    · rw [if_pos hC] at h; exact absurd h (by decide)
    · rw [if_neg hC] at h
      by_cases hD : 0 < p
      · rw [if_pos hD] at h
        have hgt : 0 < p ^ 2 - 2 * q ^ 2 := Int.sign_eq_one_iff_pos.mp h
        have hq' : q < 0 := by omega
        have hpr : (0 : ℝ) < p := by exact_mod_cast hD
        have hqr : (q : ℝ) < 0 := by exact_mod_cast hq'
        have hgt' : 2 * (q : ℝ) ^ 2 < (p : ℝ) ^ 2 := by
          have : ((0 : Int) : ℝ) < ((p ^ 2 - 2 * q ^ 2 : Int) : ℝ) := by
            exact_mod_cast hgt
          push_cast at this
          linarith
        by_contra hle
        push_neg at hle
        have h4' : 0 < (p : ℝ) - q * Real.sqrt 2 := by
          nlinarith [mul_pos (neg_pos.mpr hqr) hs0]
        have h5 : ((p : ℝ) + q * Real.sqrt 2) * ((p : ℝ) - q * Real.sqrt 2) ≤ 0 :=
          mul_nonpos_of_nonpos_of_nonneg hle h4'.le
        nlinarith [h5]
      · rw [if_neg hD] at h
        have hgt : 0 < 2 * q ^ 2 - p ^ 2 := Int.sign_eq_one_iff_pos.mp h
        have hq' : 0 < q := by omega
        have hp' : p ≤ 0 := by omega
        have hqr : (0 : ℝ) < q := by exact_mod_cast hq'
        have hpr : (p : ℝ) ≤ 0 := by exact_mod_cast hp'
        have hgt' : (p : ℝ) ^ 2 < 2 * (q : ℝ) ^ 2 := by
          have : ((0 : Int) : ℝ) < ((2 * q ^ 2 - p ^ 2 : Int) : ℝ) := by
            exact_mod_cast hgt
          push_cast at this
          linarith
        have h7 : (-(p : ℝ)) ^ 2 < ((q : ℝ) * Real.sqrt 2) ^ 2 := by
          rw [mul_pow, hs2]; nlinarith
        have := (pow_lt_pow_iff_left₀ (neg_nonneg.mpr hpr)
          (mul_nonneg hqr.le hs0.le) (two_ne_zero)).mp h7
        linarith

lemma sgnQuad_zero {p q : Int} (h : sgnQuad p q = 0) :
    (p : ℝ) + (q : ℝ) * Real.sqrt 2 = 0 := by
  unfold sgnQuad at h
  by_cases hA : 0 ≤ p ∧ 0 ≤ q
  · rw [if_pos hA] at h
    by_cases hB : p = 0 ∧ q = 0
    · rw [hB.1, hB.2]; simp
    · rw [if_neg hB] at h; exact absurd h (by decide)
  · rw [if_neg hA] at h
    by_cases hC : p ≤ 0 ∧ q ≤ 0
    · rw [if_pos hC] at h; exact absurd h (by decide)
    · rw [if_neg hC] at h
      by_cases hD : 0 < p
      · rw [if_pos hD] at h
        have heq : p ^ 2 - 2 * q ^ 2 = 0 := Int.sign_eq_zero_iff_zero.mp h
        exact absurd (by omega : p ^ 2 = 2 * q ^ 2) (int_sq_ne_two_mul_sq (by omega))
      · rw [if_neg hD] at h
        have heq : 2 * q ^ 2 - p ^ 2 = 0 := Int.sign_eq_zero_iff_zero.mp h
        have hp : p ≠ 0 := by
          rintro rfl
          have hq0 : q = 0 := by
            have h2 : q ^ 2 = 0 := by omega
            exact pow_eq_zero_iff two_ne_zero |>.mp h2
          exact hA ⟨le_refl 0, by omega⟩
        exact absurd (by omega : p ^ 2 = 2 * q ^ 2) (int_sq_ne_two_mul_sq hp)

lemma sgnQuad_neg {p q : Int} (h : sgnQuad p q = -1) :
    (p : ℝ) + (q : ℝ) * Real.sqrt 2 < 0 := by
  have hs2 := sq_sqrt2
  have hs0 := sqrt2_pos
  unfold sgnQuad at h
  by_cases hA : 0 ≤ p ∧ 0 ≤ q
  · rw [if_pos hA] at h
    by_cases hB : p = 0 ∧ q = 0
    · rw [if_pos hB] at h; exact absurd h (by decide)
    · rw [if_neg hB] at h; exact absurd h (by decide)
  · rw [if_neg hA] at h
    by_cases hC : p ≤ 0 ∧ q ≤ 0
    · have hpr : (p : ℝ) ≤ 0 := by exact_mod_cast hC.1
      have hqr : (q : ℝ) ≤ 0 := by exact_mod_cast hC.2
      rcases (by omega : p < 0 ∨ q < 0) with hp' | hq'
      · have : (p : ℝ) < 0 := by exact_mod_cast hp'
        nlinarith [mul_nonpos_of_nonpos_of_nonneg hqr hs0.le]
      · have : (q : ℝ) < 0 := by exact_mod_cast hq'
        nlinarith [mul_neg_of_neg_of_pos this hs0]
    · rw [if_neg hC] at h
      by_cases hD : 0 < p
      · rw [if_pos hD] at h
        have hlt : p ^ 2 - 2 * q ^ 2 < 0 := Int.sign_eq_neg_one_iff_neg.mp h
        have hq' : q < 0 := by omega
        have hpr : (0 : ℝ) < p := by exact_mod_cast hD
        have hqr : (q : ℝ) < 0 := by exact_mod_cast hq'
        have hlt' : (p : ℝ) ^ 2 < 2 * (q : ℝ) ^ 2 := by
          have : ((p ^ 2 - 2 * q ^ 2 : Int) : ℝ) < ((0 : Int) : ℝ) := by
            exact_mod_cast hlt
          push_cast at this
          linarith
        have h7 : (p : ℝ) ^ 2 < (-(q : ℝ) * Real.sqrt 2) ^ 2 := by
          rw [mul_pow, hs2]; nlinarith
        have := (pow_lt_pow_iff_left₀ hpr.le
          (mul_nonneg (neg_nonneg.mpr hqr.le) hs0.le) (two_ne_zero)).mp h7
        linarith
      · rw [if_neg hD] at h
        have hlt : 2 * q ^ 2 - p ^ 2 < 0 := Int.sign_eq_neg_one_iff_neg.mp h
        have hq' : 0 < q := by omega
        have hp' : p < 0 := by nlinarith [sq_nonneg q, sq_nonneg p]
        have hqr : (0 : ℝ) < q := by exact_mod_cast hq'
        have hpr : (p : ℝ) < 0 := by exact_mod_cast hp'
        have hlt' : 2 * (q : ℝ) ^ 2 < (p : ℝ) ^ 2 := by
          have : ((2 * q ^ 2 - p ^ 2 : Int) : ℝ) < ((0 : Int) : ℝ) := by
            exact_mod_cast hlt
          push_cast at this
          linarith
        have h7 : ((q : ℝ) * Real.sqrt 2) ^ 2 < (-(p : ℝ)) ^ 2 := by
          rw [mul_pow, hs2]; nlinarith
        have := (pow_lt_pow_iff_left₀ (mul_nonneg hqr.le hs0.le)
          (neg_nonneg.mpr hpr.le) (two_ne_zero)).mp h7
        linarith

lemma sgnQuad_eq_one_iff (p q : Int) :
    sgnQuad p q = 1 ↔ 0 < (p : ℝ) + (q : ℝ) * Real.sqrt 2 := by
  constructor
  · exact sgnQuad_pos
  · intro h
    rcases sgnQuad_elem p q with hs | hs | hs
    · linarith [sgnQuad_neg hs]
    · linarith [sgnQuad_zero hs, h]
    · exact hs

lemma sgnQuad_eq_zero_iff (p q : Int) :
    sgnQuad p q = 0 ↔ (p : ℝ) + (q : ℝ) * Real.sqrt 2 = 0 := by
  constructor
  · exact sgnQuad_zero
  · intro h
    rcases sgnQuad_elem p q with hs | hs | hs
    · linarith [sgnQuad_neg hs]
    · exact hs
    · linarith [sgnQuad_pos hs]

lemma sgnQuad_eq_neg_one_iff (p q : Int) :
    sgnQuad p q = -1 ↔ (p : ℝ) + (q : ℝ) * Real.sqrt 2 < 0 := by
  constructor
  · exact sgnQuad_neg
  · intro h
    rcases sgnQuad_elem p q with hs | hs | hs
    · exact hs
    · linarith [sgnQuad_zero hs]
    · linarith [sgnQuad_pos hs]

lemma sq_inj_nonneg {a b : ℝ} (ha : 0 ≤ a) (hb : 0 ≤ b) (h : a ^ 2 = b ^ 2) :
    a = b := by
  rcases lt_trichotomy a b with hl | he | hl
  · have := (pow_lt_pow_iff_left₀ ha hb two_ne_zero).mpr hl
    linarith
  · exact he
  · have := (pow_lt_pow_iff_left₀ hb ha two_ne_zero).mpr hl
    linarith

lemma sgnQR_elem (P Q : Int) (M : ℕ) :
    sgnQR P Q M = -1 ∨ sgnQR P Q M = 0 ∨ sgnQR P Q M = 1 := by
  unfold sgnQR
  split_ifs
  · right; left; rfl
  · right; right; rfl
  · right; right; rfl
  · exact sgnQuad_elem _ _

lemma sgnQR_wsq (P Q : Int) :
    ((P : ℝ) + (Q : ℝ) * Real.sqrt 2) ^ 2 =
      (P : ℝ) ^ 2 + 2 * (Q : ℝ) ^ 2 + 2 * (P : ℝ) * (Q : ℝ) * Real.sqrt 2 := by
  linear_combination ((Q : ℝ) ^ 2) * sq_sqrt2

lemma sgnQR_msq (M : ℕ) : (2 * Real.sqrt (M : ℝ)) ^ 2 = 4 * (M : ℝ) := by
  rw [mul_pow, Real.sq_sqrt (by positivity)]
  norm_num

lemma sgnQR_pos {P Q : Int} {M : ℕ} (h : sgnQR P Q M = 1) :
    0 < (P : ℝ) + (Q : ℝ) * Real.sqrt 2 + 2 * Real.sqrt (M : ℝ) := by
  have hsMnn : 0 ≤ Real.sqrt (M : ℝ) := Real.sqrt_nonneg _
  unfold sgnQR at h
  by_cases h0 : sgnQuad P Q = 0
  · rw [if_pos h0] at h
    have hW := sgnQuad_zero h0
    by_cases hM : M = 0
    · rw [if_pos hM] at h; exact absurd h (by decide)
    · have hMpos : (0 : ℝ) < Real.sqrt (M : ℝ) := Real.sqrt_pos.mpr (by
        have : (0 : ℕ) < M := Nat.pos_of_ne_zero hM
        exact_mod_cast this)
      linarith
  · rw [if_neg h0] at h
    by_cases h1 : sgnQuad P Q = 1
    · have hW := sgnQuad_pos h1
      linarith
    · rw [if_neg h1] at h
      have hWneg : sgnQuad P Q = -1 := by
        rcases sgnQuad_elem P Q with hh | hh | hh <;> tauto
      have hW := sgnQuad_neg hWneg
      have hV := sgnQuad_pos h
      push_cast at hV
      have h4M : ((P : ℝ) + (Q : ℝ) * Real.sqrt 2) ^ 2 < 4 * (M : ℝ) := by
        have := sgnQR_wsq P Q
        nlinarith [hV]
      have hlt : (-((P : ℝ) + (Q : ℝ) * Real.sqrt 2)) ^ 2 <
          (2 * Real.sqrt (M : ℝ)) ^ 2 := by
        rw [sgnQR_msq]
        nlinarith [h4M]
      have := (pow_lt_pow_iff_left₀ (neg_nonneg.mpr hW.le)
        (by positivity) two_ne_zero).mp hlt
      linarith

lemma sgnQR_zero {P Q : Int} {M : ℕ} (h : sgnQR P Q M = 0) :
    (P : ℝ) + (Q : ℝ) * Real.sqrt 2 + 2 * Real.sqrt (M : ℝ) = 0 := by
  unfold sgnQR at h
  by_cases h0 : sgnQuad P Q = 0
  · rw [if_pos h0] at h
    have hW := sgnQuad_zero h0
    by_cases hM : M = 0
    · subst hM
      simp only [Nat.cast_zero, Real.sqrt_zero]
      linarith
    · rw [if_neg hM] at h
      exact absurd h (by decide)
  · rw [if_neg h0] at h
    by_cases h1 : sgnQuad P Q = 1
    · rw [if_pos h1] at h; exact absurd h (by decide)
    · rw [if_neg h1] at h
      have hWneg : sgnQuad P Q = -1 := by
        rcases sgnQuad_elem P Q with hh | hh | hh <;> tauto
      have hW := sgnQuad_neg hWneg
      have hV := sgnQuad_zero h
      push_cast at hV
      have h4M : ((P : ℝ) + (Q : ℝ) * Real.sqrt 2) ^ 2 = 4 * (M : ℝ) := by
        have := sgnQR_wsq P Q
        nlinarith [hV]
      have heq : (2 * Real.sqrt (M : ℝ)) = -((P : ℝ) + (Q : ℝ) * Real.sqrt 2) := by
        apply sq_inj_nonneg (by positivity) (neg_nonneg.mpr hW.le)
        rw [sgnQR_msq]
        nlinarith [h4M]
      linarith

lemma sgnQR_neg {P Q : Int} {M : ℕ} (h : sgnQR P Q M = -1) :
    (P : ℝ) + (Q : ℝ) * Real.sqrt 2 + 2 * Real.sqrt (M : ℝ) < 0 := by
  unfold sgnQR at h
  by_cases h0 : sgnQuad P Q = 0
  · rw [if_pos h0] at h
    by_cases hM : M = 0
    · rw [if_pos hM] at h; exact absurd h (by decide)
    · rw [if_neg hM] at h; exact absurd h (by decide)
  · rw [if_neg h0] at h
    by_cases h1 : sgnQuad P Q = 1
    · rw [if_pos h1] at h; exact absurd h (by decide)
    · rw [if_neg h1] at h
      have hWneg : sgnQuad P Q = -1 := by
        rcases sgnQuad_elem P Q with hh | hh | hh <;> tauto
      have hW := sgnQuad_neg hWneg
      have hV := sgnQuad_neg h
      push_cast at hV
      have h4M : 4 * (M : ℝ) < ((P : ℝ) + (Q : ℝ) * Real.sqrt 2) ^ 2 := by
        have := sgnQR_wsq P Q
        nlinarith [hV]
      have hlt : (2 * Real.sqrt (M : ℝ)) ^ 2 <
          (-((P : ℝ) + (Q : ℝ) * Real.sqrt 2)) ^ 2 := by
        rw [sgnQR_msq]
        nlinarith [h4M]
      have := (pow_lt_pow_iff_left₀ (by positivity)
        (neg_nonneg.mpr hW.le) two_ne_zero).mp hlt
      linarith

lemma sgnQR_lt_zero_iff (P Q : Int) (M : ℕ) :
    sgnQR P Q M < 0 ↔
      (P : ℝ) + (Q : ℝ) * Real.sqrt 2 + 2 * Real.sqrt (M : ℝ) < 0 := by
  constructor
  · intro h
    have : sgnQR P Q M = -1 := by
      rcases sgnQR_elem P Q M with hh | hh | hh <;> omega
    exact sgnQR_neg this
  · intro h
    rcases sgnQR_elem P Q M with hh | hh | hh
    · omega
    · linarith [sgnQR_zero hh]
    · linarith [sgnQR_pos hh]

lemma sgnQR_gt_zero_iff (P Q : Int) (M : ℕ) :
    0 < sgnQR P Q M ↔
      0 < (P : ℝ) + (Q : ℝ) * Real.sqrt 2 + 2 * Real.sqrt (M : ℝ) := by
  constructor
  · intro h
    have : sgnQR P Q M = 1 := by
      rcases sgnQR_elem P Q M with hh | hh | hh <;> omega
    exact sgnQR_pos this
  · intro h
    rcases sgnQR_elem P Q M with hh | hh | hh
    · linarith [sgnQR_neg hh]
    · linarith [sgnQR_zero hh]
    · omega

lemma lt_iff_sq_lt_sq_of_pos {L R : ℝ} (hL : 0 < L) (hR : 0 < R) :
    L < R ↔ L ^ 2 < R ^ 2 :=
  (pow_lt_pow_iff_left₀ hL.le hR.le two_ne_zero).symm

lemma lt_iff_sq_gt_sq_of_neg {L R : ℝ} (hL : L < 0) (hR : R < 0) :
    L < R ↔ R ^ 2 < L ^ 2 := by
  constructor
  · intro h
    have h2 : -R < -L := by linarith
    have := (pow_lt_pow_iff_left₀ (by linarith : (0 : ℝ) ≤ -R)
      (by linarith : (0 : ℝ) ≤ -L) two_ne_zero).mpr h2
    nlinarith [this]
  · intro h
    have h2 : (-R) ^ 2 < (-L) ^ 2 := by nlinarith
    have := (pow_lt_pow_iff_left₀ (by linarith : (0 : ℝ) ≤ -R)
      (by linarith : (0 : ℝ) ≤ -L) two_ne_zero).mp h2
    linarith

lemma ltTriple_e_eq (p q : Int) (n1 n2 : ℕ) :
    ((p ^ 2 + 2 * q ^ 2 - (n1 : Int) - (n2 : Int) : Int) : ℝ) +
      ((2 * p * q : Int) : ℝ) * Real.sqrt 2 + 2 * Real.sqrt ((n1 * n2 : ℕ) : ℝ) =
    ((p : ℝ) + (q : ℝ) * Real.sqrt 2) ^ 2 -
      (Real.sqrt (n2 : ℝ) - Real.sqrt (n1 : ℝ)) ^ 2 := by
  have hm : Real.sqrt ((n1 * n2 : ℕ) : ℝ) =
      Real.sqrt (n1 : ℝ) * Real.sqrt (n2 : ℝ) := by
    push_cast
    exact Real.sqrt_mul (by positivity) _
  rw [hm]
  push_cast
  linear_combination (-(q : ℝ) ^ 2) * sq_sqrt2 +
    Real.sq_sqrt (show (0 : ℝ) ≤ (n1 : ℝ) by positivity) +
    Real.sq_sqrt (show (0 : ℝ) ≤ (n2 : ℝ) by positivity)

lemma ltTriple_spec (t1 t2 : ℕ × ℕ × ℕ) :
    (ltTriple t1 t2 = true) ↔ triVal t1 < triVal t2 := by
  obtain ⟨a1, b1, n1⟩ := t1
  obtain ⟨a2, b2, n2⟩ := t2
  simp only [ltTriple, triVal]
  set p : Int := (a1 : Int) - a2 with hp
  set q : Int := (b1 : Int) - b2 with hq
  have hiff : ((a1 : ℝ) + (b1 : ℝ) * Real.sqrt 2 + Real.sqrt (n1 : ℝ) <
      (a2 : ℝ) + (b2 : ℝ) * Real.sqrt 2 + Real.sqrt (n2 : ℝ)) ↔
      (p : ℝ) + (q : ℝ) * Real.sqrt 2 <
        Real.sqrt (n2 : ℝ) - Real.sqrt (n1 : ℝ) := by
    rw [hp, hq]
    push_cast
    constructor <;> intro <;> linarith
  rw [hiff]
  have heeq := ltTriple_e_eq p q n1 n2
  rcases sgnQuad_elem p q with hL | hL | hL <;>
    rcases Nat.lt_trichotomy n1 n2 with hN | hN | hN
  · -- L < 0, R > 0
    have hsR : Int.sign ((n2 : Int) - n1) = 1 := Int.sign_eq_one_iff_pos.mpr (by omega)
    have hRpos : Real.sqrt (n1 : ℝ) < Real.sqrt (n2 : ℝ) :=
      Real.sqrt_lt_sqrt (by positivity) (by exact_mod_cast hN)
    rw [hL, hsR]
    norm_num
    linarith [sgnQuad_neg hL]
  · -- L < 0, R = 0
    have hsR : Int.sign ((n2 : Int) - n1) = 0 := Int.sign_eq_zero_iff_zero.mpr (by omega)
    rw [hL, hsR, hN]
    norm_num
    linarith [sgnQuad_neg hL]
  · -- L < 0, R < 0
    have hsR : Int.sign ((n2 : Int) - n1) = -1 :=
      Int.sign_eq_neg_one_iff_neg.mpr (by omega)
    have hRneg : Real.sqrt (n2 : ℝ) < Real.sqrt (n1 : ℝ) :=
      Real.sqrt_lt_sqrt (by positivity) (by exact_mod_cast hN)
    rw [hL, hsR]
    norm_num
    rw [sgnQR_gt_zero_iff, heeq,
      lt_iff_sq_gt_sq_of_neg (sgnQuad_neg hL) (by linarith)]
    constructor <;> intro <;> linarith
  · -- L = 0, R > 0
    have hsR : Int.sign ((n2 : Int) - n1) = 1 := Int.sign_eq_one_iff_pos.mpr (by omega)
    have hRpos : Real.sqrt (n1 : ℝ) < Real.sqrt (n2 : ℝ) :=
      Real.sqrt_lt_sqrt (by positivity) (by exact_mod_cast hN)
    rw [hL, hsR]
    norm_num
    linarith [sgnQuad_zero hL]
  · -- L = 0, R = 0
    have hsR : Int.sign ((n2 : Int) - n1) = 0 := Int.sign_eq_zero_iff_zero.mpr (by omega)
    rw [hL, hsR, hN]
    norm_num
    linarith [sgnQuad_zero hL]
  · -- L = 0, R < 0
    have hsR : Int.sign ((n2 : Int) - n1) = -1 :=
      Int.sign_eq_neg_one_iff_neg.mpr (by omega)
    have hRneg : Real.sqrt (n2 : ℝ) < Real.sqrt (n1 : ℝ) :=
      Real.sqrt_lt_sqrt (by positivity) (by exact_mod_cast hN)
    rw [hL, hsR]
    norm_num
    linarith [sgnQuad_zero hL]
  · -- L > 0, R > 0
    have hsR : Int.sign ((n2 : Int) - n1) = 1 := Int.sign_eq_one_iff_pos.mpr (by omega)
    have hRpos : Real.sqrt (n1 : ℝ) < Real.sqrt (n2 : ℝ) :=
      Real.sqrt_lt_sqrt (by positivity) (by exact_mod_cast hN)
    rw [hL, hsR]
    norm_num
    rw [sgnQR_lt_zero_iff, heeq,
      lt_iff_sq_lt_sq_of_pos (sgnQuad_pos hL) (by linarith)]
    constructor <;> intro <;> linarith
  · -- L > 0, R = 0
    have hsR : Int.sign ((n2 : Int) - n1) = 0 := Int.sign_eq_zero_iff_zero.mpr (by omega)
    rw [hL, hsR, hN]
    norm_num
    linarith [sgnQuad_pos hL]
  · -- L > 0, R < 0
    have hsR : Int.sign ((n2 : Int) - n1) = -1 :=
      Int.sign_eq_neg_one_iff_neg.mpr (by omega)
    have hRneg : Real.sqrt (n2 : ℝ) < Real.sqrt (n1 : ℝ) :=
      Real.sqrt_lt_sqrt (by positivity) (by exact_mod_cast hN)
    rw [hL, hsR]
    norm_num
    linarith [sgnQuad_pos hL]

lemma costVal_nil : costVal [] = 0 := by simp [costVal]

lemma costVal_cons (k : ℕ) (c : Cost) :
    costVal (k :: c) = Real.sqrt (k : ℝ) + costVal c := by
  simp [costVal]

lemma costVal_concat (c : Cost) (n : ℕ) :
    costVal (c ++ [n]) = costVal c + Real.sqrt (n : ℝ) := by
  simp [costVal]

lemma triVal_foldl (c : Cost) : ∀ a b m : ℕ,
    (m ≠ 0 → c.countP bigRad = 0) → c.countP bigRad ≤ 1 →
    triVal (c.foldl normStep (a, b, m)) = triVal (a, b, m) + costVal c := by
  induction c with
  | nil => intro a b m _ _; simp [costVal]
  | cons k c ih =>
    intro a b m hm hc
    rw [List.foldl_cons, costVal_cons]
    match k with
    | 0 =>
      have hbig : bigRad 0 = false := by decide
      rw [show normStep (a, b, m) 0 = (a, b, m) from rfl]
      rw [ih a b m (fun h => by simpa [List.countP_cons, hbig] using hm h)
        (by simpa [List.countP_cons, hbig] using hc)]
      simp
    | 1 =>
      have hbig : bigRad 1 = false := by decide
      rw [show normStep (a, b, m) 1 = (a + 1, b, m) from rfl]
      rw [ih (a + 1) b m (fun h => by simpa [List.countP_cons, hbig] using hm h)
        (by simpa [List.countP_cons, hbig] using hc)]
      simp only [triVal]
      push_cast
      rw [Real.sqrt_one]
      ring
    | 2 =>
      have hbig : bigRad 2 = false := by decide
      rw [show normStep (a, b, m) 2 = (a, b + 1, m) from rfl]
      rw [ih a (b + 1) m (fun h => by simpa [List.countP_cons, hbig] using hm h)
        (by simpa [List.countP_cons, hbig] using hc)]
      simp only [triVal]
      push_cast
      ring
    | (n + 3) =>
      have hbig : bigRad (n + 3) = true := by simp [bigRad]
      have hcount : c.countP bigRad = 0 := by
        simp only [List.countP_cons, hbig, if_true] at hc
        omega
      by_cases hm0 : m = 0
      · subst hm0
        rw [show normStep (a, b, 0) (n + 3) = (a, b, n + 3) from by
          simp [normStep]]
        rw [ih a b (n + 3) (fun _ => hcount) (by omega)]
        simp only [triVal]
        rw [Nat.cast_zero, Real.sqrt_zero]
        ring
      · exfalso
        have := hm hm0
        simp only [List.countP_cons, hbig, if_true] at this
        omega

lemma norm_val {c : Cost} (hc : NormOk c) : triVal (norm c) = costVal c := by
  unfold norm
  rw [triVal_foldl c 0 0 0 (fun h => absurd rfl h) hc]
  simp [triVal]

lemma ltCost_spec {c1 c2 : Cost} (h1 : NormOk c1) (h2 : NormOk c2) :
    (ltCost c1 c2 = true) ↔ costVal c1 < costVal c2 := by
  unfold ltCost
  rw [ltTriple_spec, norm_val h1, norm_val h2]

lemma heuristicSq_shift (x y d e : Int) :
    heuristicSq x y (x + d) (y + e) = (d ^ 2 + e ^ 2).toNat := by
  unfold heuristicSq
  congr 1
  ring

lemma heuristicSq_step {i : ℕ} (hi : i < 8) (x y : Int) :
    heuristicSq x y (x + dxs.getD i 0) (y + dys.getD i 0) = 1 ∨
    heuristicSq x y (x + dxs.getD i 0) (y + dys.getD i 0) = 2 := by
  interval_cases i <;>
    simp only [dxs, dys, List.getD, List.getD_cons_zero, List.getD_cons_succ] <;>
    rw [heuristicSq_shift] <;> decide

lemma normOk_of_steps {g : Cost} (hg : ∀ n ∈ g, n ≤ 2) (n : ℕ) :
    NormOk (g ++ [n]) := by
  unfold NormOk
  rw [List.countP_append]
  have h1 : g.countP bigRad = 0 :=
    List.countP_eq_zero.mpr (fun a ha => by
      simp only [bigRad, decide_eq_true_eq]
      have := hg a ha
      omega)
  have h2 : List.countP bigRad [n] ≤ 1 := by
    rw [show List.countP bigRad [n] = if bigRad n then 1 else 0 from by
      simp [List.countP_cons]]
    split <;> omega
  omega

lemma push_state_ne (st : AState) (A : List (List (Option SNode))) (nd : SNode) :
    ({ st with allNodes := A, openList := nd :: st.openList } : AState) ≠ st := by
  intro heq
  have := congrArg (fun s : AState => s.openList.length) heq
  simp at this

/-- C5: one iteration of the neighbour loop of the expansion of the current
    node.  A neighbour that is out of bounds, blocked (`isValid` false) or
    already closed is skipped (the state is unchanged).  A surviving
    neighbour's node is created — with predecessor `current` — and pushed on
    the open list exactly when no node is recorded for that cell or the
    recorded node's `f` exceeds `gNew + hNew`, where
    `gNew = g(current) + step` with `step` the Euclidean distance between the
    two cells and `hNew` the Euclidean distance from the neighbour to the
    goal (the `costVal` equations restate the exact real values of the
    radicand lists used by the embedding). -/
theorem c5_expansion_rule (rows cols : ℕ) (goal : Int × Int) (cur : SNode)
    (st : AState) (i : ℕ) (nx ny : Int) (gNew fNew : Cost)
    (hi : i < 8)
    (hnx : nx = cur.x + dxs.getD i 0) (hny : ny = cur.y + dys.getD i 0)
    (hgNew : gNew = cur.g ++ [heuristicSq cur.x cur.y nx ny])
    (hfNew : fNew = gNew ++ [heuristicSq nx ny goal.1 goal.2])
    (hsteps : ∀ n ∈ cur.g, n ≤ 2) :
    (costVal gNew = costVal cur.g +
        Real.sqrt ((heuristicSq cur.x cur.y nx ny : ℕ) : ℝ) ∧
      costVal fNew = costVal gNew +
        Real.sqrt ((heuristicSq nx ny goal.1 goal.2 : ℕ) : ℝ)) ∧
    ((isValid nx ny rows cols st.grid = false ∨
        get2d st.closed nx ny false = true) →
      expandDir rows cols goal cur st i = st) ∧
    (isValid nx ny rows cols st.grid = true →
      get2d st.closed nx ny false = false →
      get2d st.allNodes nx ny none = none →
      expandDir rows cols goal cur st i =
        { st with
          allNodes := set2d st.allNodes nx ny
            (some (SNode.mk nx ny fNew gNew
              (heuristicSq nx ny goal.1 goal.2) (some cur))),
          openList := SNode.mk nx ny fNew gNew
            (heuristicSq nx ny goal.1 goal.2) (some cur) :: st.openList }) ∧
    (∀ stored, isValid nx ny rows cols st.grid = true →
      get2d st.closed nx ny false = false →
      get2d st.allNodes nx ny none = some stored → NormOk stored.f →
      ((expandDir rows cols goal cur st i =
        { st with
          allNodes := set2d st.allNodes nx ny
            (some (SNode.mk nx ny fNew gNew
              (heuristicSq nx ny goal.1 goal.2) (some cur))),
          openList := SNode.mk nx ny fNew gNew
            (heuristicSq nx ny goal.1 goal.2) (some cur) :: st.openList }) ↔
        costVal gNew + Real.sqrt ((heuristicSq nx ny goal.1 goal.2 : ℕ) : ℝ) <
          costVal stored.f) ∧
      (¬ (costVal gNew +
            Real.sqrt ((heuristicSq nx ny goal.1 goal.2 : ℕ) : ℝ) <
            costVal stored.f) →
        expandDir rows cols goal cur st i = st)) := by
  subst hnx hny hgNew hfNew
  have hstep := heuristicSq_step hi cur.x cur.y
  have hgsteps : ∀ n ∈ cur.g ++ [heuristicSq cur.x cur.y
      (cur.x + dxs.getD i 0) (cur.y + dys.getD i 0)], n ≤ 2 := by
    intro n hn
    rcases List.mem_append.mp hn with hn | hn
    · exact hsteps n hn
    · rcases List.mem_singleton.mp hn with rfl
      rcases hstep with hh | hh <;> omega
  have hfOk : NormOk ((cur.g ++ [heuristicSq cur.x cur.y
      (cur.x + dxs.getD i 0) (cur.y + dys.getD i 0)]) ++
      [heuristicSq (cur.x + dxs.getD i 0) (cur.y + dys.getD i 0) goal.1 goal.2]) :=
    normOk_of_steps hgsteps _
  refine ⟨⟨costVal_concat _ _, costVal_concat _ _⟩, ?_, ?_, ?_⟩
  · intro hskip
    simp only [expandDir]
    rcases hskip with h | h <;> rw [h] <;> simp
  · intro hvalid hclosed hnone
    simp only [expandDir]
    rw [hvalid, hclosed, hnone]
    simp
  · intro stored hvalid hclosed hstored hstOk
    have hsem := ltCost_spec hfOk hstOk
    rw [costVal_concat] at hsem
    by_cases hlt : ltCost ((cur.g ++ [heuristicSq cur.x cur.y
        (cur.x + dxs.getD i 0) (cur.y + dys.getD i 0)]) ++
        [heuristicSq (cur.x + dxs.getD i 0) (cur.y + dys.getD i 0)
          goal.1 goal.2]) stored.f = true
    · have hval := hsem.mp hlt
      have hpush : expandDir rows cols goal cur st i =
          { st with
            allNodes := set2d st.allNodes (cur.x + dxs.getD i 0)
              (cur.y + dys.getD i 0)
              (some (SNode.mk (cur.x + dxs.getD i 0) (cur.y + dys.getD i 0)
                ((cur.g ++ [heuristicSq cur.x cur.y (cur.x + dxs.getD i 0)
                  (cur.y + dys.getD i 0)]) ++
                  [heuristicSq (cur.x + dxs.getD i 0) (cur.y + dys.getD i 0)
                    goal.1 goal.2])
                (cur.g ++ [heuristicSq cur.x cur.y (cur.x + dxs.getD i 0)
                  (cur.y + dys.getD i 0)])
                (heuristicSq (cur.x + dxs.getD i 0) (cur.y + dys.getD i 0)
                  goal.1 goal.2) (some cur))),
            openList := SNode.mk (cur.x + dxs.getD i 0) (cur.y + dys.getD i 0)
              ((cur.g ++ [heuristicSq cur.x cur.y (cur.x + dxs.getD i 0)
                (cur.y + dys.getD i 0)]) ++
                [heuristicSq (cur.x + dxs.getD i 0) (cur.y + dys.getD i 0)
                  goal.1 goal.2])
              (cur.g ++ [heuristicSq cur.x cur.y (cur.x + dxs.getD i 0)
                (cur.y + dys.getD i 0)])
              (heuristicSq (cur.x + dxs.getD i 0) (cur.y + dys.getD i 0)
                goal.1 goal.2) (some cur) :: st.openList } := by
        simp only [expandDir]
        rw [hvalid, hclosed]
        rw [if_neg (by decide)]
        rw [hstored]
        dsimp only
        rw [hlt, if_pos rfl]
      refine ⟨⟨fun _ => hval, fun _ => hpush⟩, fun hcon => absurd hval hcon⟩
    · have hnval : ¬ (costVal (cur.g ++ [heuristicSq cur.x cur.y
          (cur.x + dxs.getD i 0) (cur.y + dys.getD i 0)]) +
          Real.sqrt ((heuristicSq (cur.x + dxs.getD i 0)
            (cur.y + dys.getD i 0) goal.1 goal.2 : ℕ) : ℝ) <
          costVal stored.f) := fun hv => hlt (hsem.mpr hv)
      have hltf : ltCost ((cur.g ++ [heuristicSq cur.x cur.y
          (cur.x + dxs.getD i 0) (cur.y + dys.getD i 0)]) ++
          [heuristicSq (cur.x + dxs.getD i 0) (cur.y + dys.getD i 0)
            goal.1 goal.2]) stored.f = false := Bool.eq_false_iff.mpr hlt
      have hsame : expandDir rows cols goal cur st i = st := by
        simp only [expandDir]
        rw [hvalid, hclosed]
        rw [if_neg (by decide)]
        rw [hstored]
        dsimp only
        rw [hltf, if_neg (by decide)]
      refine ⟨⟨?_, fun hv => absurd hv hnval⟩, fun _ => hsame⟩
      intro hpe
      rw [hsame] at hpe
      exact absurd hpe.symm (push_state_ne st _ _)

theorem c5_expansion_rule_witness :
    expandDir 1 2 (0, 1) (SNode.mk 0 0 [] [] 1 none)
        ⟨[[1, 0]], [[true, false]], [[some (SNode.mk 0 0 [] [] 1 none), none]], []⟩ 3 =
      ⟨[[1, 0]], [[true, false]],
        [[some (SNode.mk 0 0 [] [] 1 none),
          some (SNode.mk 0 1 [1, 0] [1] 0 (some (SNode.mk 0 0 [] [] 1 none)))]],
        [SNode.mk 0 1 [1, 0] [1] 0 (some (SNode.mk 0 0 [] [] 1 none))]⟩ :=
  ((c5_expansion_rule 1 2 (0, 1) (SNode.mk 0 0 [] [] 1 none)
      ⟨[[1, 0]], [[true, false]], [[some (SNode.mk 0 0 [] [] 1 none), none]], []⟩
      3 0 1 [1] [1, 0]
      (by decide) (by decide) (by decide) (by decide) (by decide)
      (by decide)).2.2.1 (by decide) rfl rfl).trans (by rfl)

theorem c2_path_endpoints_and_steps_witness :
    aStarSearch 2 [[0, 0]] (0, 0) (0, 1) ≠ [] ∧
    ((aStarSearch 2 [[0, 0]] (0, 0) (0, 1)).head? = some (0, 0) ∧
      (aStarSearch 2 [[0, 0]] (0, 0) (0, 1)).getLast? = some (0, 1) ∧
      List.Chain' Adj (aStarSearch 2 [[0, 0]] (0, 0) (0, 1))) :=
  ⟨by decide, c2_path_endpoints_and_steps 2 [[0, 0]] (0, 0) (0, 1) (by decide)⟩

/-! ### Octile geometry (for the obstacle-free optimality claim) -/

lemma one_lt_sqrt2 : (1 : ℝ) < Real.sqrt 2 := by
  nlinarith [sq_sqrt2, sqrt2_pos]

lemma sqrt2_lt_two : Real.sqrt 2 < 2 := by
  nlinarith [sq_sqrt2, sqrt2_pos]

lemma octN_val (a b : ℕ) :
    octN a b = max (a : ℝ) (b : ℝ) - min (a : ℝ) (b : ℝ) +
      min (a : ℝ) (b : ℝ) * Real.sqrt 2 := by
  unfold octN
  rw [Nat.cast_sub (min_le_max), Nat.cast_max, Nat.cast_min]

lemma octN_nonneg (a b : ℕ) : 0 ≤ octN a b := by
  rw [octN_val]
  rcases le_total (a : ℝ) (b : ℝ) with h | h
  · rw [max_eq_right h, min_eq_left h]
    nlinarith [one_lt_sqrt2, Nat.cast_nonneg (α := ℝ) a]
  · rw [max_eq_left h, min_eq_right h]
    nlinarith [one_lt_sqrt2, Nat.cast_nonneg (α := ℝ) b]

lemma octN_zero : octN 0 0 = 0 := by
  rw [octN_val]
  norm_num

lemma octD_self (u : Int × Int) : octD u u = 0 := by
  unfold octD
  simp [octN_zero]

lemma octNR_split (A B T : ℝ) :
    (max (min T A) (min T B) - min (min T A) (min T B) +
        min (min T A) (min T B) * Real.sqrt 2) +
      (max (A - min T A) (B - min T B) - min (A - min T A) (B - min T B) +
        min (A - min T A) (B - min T B) * Real.sqrt 2) =
    max A B - min A B + min A B * Real.sqrt 2 := by
  simp only [max_def, min_def]
  split_ifs
  all_goals try ring
  all_goals try linarith
  all_goals first
    | (have h : A = T := by linarith
       rw [h]; ring)
    | (have h : B = T := by linarith
       rw [h]; ring)

lemma octN_succ_both {x y : ℕ} :
    octN (x + 1) (y + 1) = octN x y + Real.sqrt 2 := by
  rw [octN_val, octN_val]
  push_cast
  rcases le_total (x : ℝ) (y : ℝ) with h | h
  · rw [max_eq_right h, min_eq_left h,
      max_eq_right (by linarith : (x : ℝ) + 1 ≤ (y : ℝ) + 1),
      min_eq_left (by linarith : (x : ℝ) + 1 ≤ (y : ℝ) + 1)]
    ring
  · rw [max_eq_left h, min_eq_right h,
      max_eq_left (by linarith : (y : ℝ) + 1 ≤ (x : ℝ) + 1),
      min_eq_right (by linarith : (y : ℝ) + 1 ≤ (x : ℝ) + 1)]
    ring

lemma octN_succ_left {x y : ℕ} (h : y ≤ x) :
    octN (x + 1) y = octN x y + 1 := by
  rw [octN_val, octN_val]
  have h' : (y : ℝ) ≤ (x : ℝ) := by exact_mod_cast h
  push_cast
  rw [max_eq_left h', min_eq_right h',
    max_eq_left (by linarith : (y : ℝ) ≤ (x : ℝ) + 1),
    min_eq_right (by linarith : (y : ℝ) ≤ (x : ℝ) + 1)]
  ring

lemma octN_succ_right {x y : ℕ} (h : x ≤ y) :
    octN x (y + 1) = octN x y + 1 := by
  rw [octN_val, octN_val]
  have h' : (x : ℝ) ≤ (y : ℝ) := by exact_mod_cast h
  push_cast
  rw [max_eq_right h', min_eq_left h',
    max_eq_right (by linarith : (x : ℝ) ≤ (y : ℝ) + 1),
    min_eq_left (by linarith : (x : ℝ) ≤ (y : ℝ) + 1)]
  ring

lemma eucD_nonneg (u v : Int × Int) : 0 ≤ eucD u v := Real.sqrt_nonneg _

lemma eucD_self (u : Int × Int) : eucD u u = 0 := by
  unfold eucD heuristicSq
  simp

lemma heuristicSq_cast (u v : Int × Int) :
    ((heuristicSq u.1 u.2 v.1 v.2 : ℕ) : ℝ) =
      ((u.1 : ℝ) - v.1) ^ 2 + ((u.2 : ℝ) - v.2) ^ 2 := by
  unfold heuristicSq
  have h0 : (0 : Int) ≤ (u.1 - v.1) ^ 2 + (u.2 - v.2) ^ 2 := by positivity
  rw [show ((((u.1 - v.1) ^ 2 + (u.2 - v.2) ^ 2).toNat : ℕ) : ℝ)
      = (((u.1 - v.1) ^ 2 + (u.2 - v.2) ^ 2 : Int) : ℝ) from by
    exact_mod_cast congrArg (fun z : Int => (z : ℝ)) (Int.toNat_of_nonneg h0)]
  push_cast
  ring

lemma eucD_triangle (u v w : Int × Int) : eucD u w ≤ eucD u v + eucD v w := by
  unfold eucD
  rw [heuristicSq_cast, heuristicSq_cast, heuristicSq_cast]
  set A : ℝ := (u.1 : ℝ) - v.1 with hA
  set B : ℝ := (u.2 : ℝ) - v.2 with hB
  set C : ℝ := (v.1 : ℝ) - w.1 with hC
  set D : ℝ := (v.2 : ℝ) - w.2 with hD
  have h1 : (u.1 : ℝ) - w.1 = A + C := by rw [hA, hC]; ring
  have h2 : (u.2 : ℝ) - w.2 = B + D := by rw [hB, hD]; ring
  rw [h1, h2]
  have hL := Real.sqrt_nonneg (A ^ 2 + B ^ 2)
  have hR := Real.sqrt_nonneg (C ^ 2 + D ^ 2)
  have hL2 : Real.sqrt (A ^ 2 + B ^ 2) ^ 2 = A ^ 2 + B ^ 2 :=
    Real.sq_sqrt (by positivity)
  have hR2 : Real.sqrt (C ^ 2 + D ^ 2) ^ 2 = C ^ 2 + D ^ 2 :=
    Real.sq_sqrt (by positivity)
  have hcs : A * C + B * D ≤
      Real.sqrt (A ^ 2 + B ^ 2) * Real.sqrt (C ^ 2 + D ^ 2) := by
    rcases le_or_lt (A * C + B * D) 0 with h | h
    · exact h.trans (by positivity)
    · have hsq : (A * C + B * D) ^ 2 ≤
          (Real.sqrt (A ^ 2 + B ^ 2) * Real.sqrt (C ^ 2 + D ^ 2)) ^ 2 := by
        rw [mul_pow, hL2, hR2]
        nlinarith [sq_nonneg (A * D - B * C)]
      by_contra hcon
      push_neg at hcon
      nlinarith [hsq, mul_nonneg hL hR]
  calc Real.sqrt ((A + C) ^ 2 + (B + D) ^ 2)
      ≤ Real.sqrt ((Real.sqrt (A ^ 2 + B ^ 2) + Real.sqrt (C ^ 2 + D ^ 2)) ^ 2) := by
        apply Real.sqrt_le_sqrt
        nlinarith [hcs]
    _ = _ := Real.sqrt_sq (by positivity)

lemma eucD_le_octD (u v : Int × Int) : eucD u v ≤ octD u v := by
  unfold eucD octD
  rw [heuristicSq_cast, octN_val]
  set A : ℝ := ((u.1 - v.1).natAbs : ℝ) with hAdef
  set B : ℝ := ((u.2 - v.2).natAbs : ℝ) with hBdef
  have hA0 : 0 ≤ A := by rw [hAdef]; positivity
  have hB0 : 0 ≤ B := by rw [hBdef]; positivity
  have hA2 : ((u.1 : ℝ) - v.1) ^ 2 = A ^ 2 := by
    rw [hAdef]
    rw [show ((u.1 - v.1).natAbs : ℝ) = |((u.1 - v.1 : Int) : ℝ)| from by
      rw [Int.cast_natAbs]; push_cast; rfl]
    rw [sq_abs]
    push_cast
    ring
  have hB2 : ((u.2 : ℝ) - v.2) ^ 2 = B ^ 2 := by
    rw [hBdef]
    rw [show ((u.2 - v.2).natAbs : ℝ) = |((u.2 - v.2 : Int) : ℝ)| from by
      rw [Int.cast_natAbs]; push_cast; rfl]
    rw [sq_abs]
    push_cast
    ring
  rw [hA2, hB2]
  have hgoal : Real.sqrt (A ^ 2 + B ^ 2) ≤
      max A B - min A B + min A B * Real.sqrt 2 := by
    have hrhs : 0 ≤ max A B - min A B + min A B * Real.sqrt 2 := by
      rcases le_total A B with h | h
      · rw [max_eq_right h, min_eq_left h]
        nlinarith [one_lt_sqrt2]
      · rw [max_eq_left h, min_eq_right h]
        nlinarith [one_lt_sqrt2]
    have hsq : A ^ 2 + B ^ 2 ≤
        (max A B - min A B + min A B * Real.sqrt 2) ^ 2 := by
      rcases le_total A B with h | h
      · rw [max_eq_right h, min_eq_left h]
        nlinarith [sq_sqrt2, one_lt_sqrt2, mul_nonneg hA0 (sub_nonneg.mpr h)]
      · rw [max_eq_left h, min_eq_right h]
        nlinarith [sq_sqrt2, one_lt_sqrt2, mul_nonneg hB0 (sub_nonneg.mpr h)]
    calc Real.sqrt (A ^ 2 + B ^ 2)
        ≤ Real.sqrt ((max A B - min A B + min A B * Real.sqrt 2) ^ 2) :=
          Real.sqrt_le_sqrt hsq
      _ = _ := Real.sqrt_sq hrhs
  exact hgoal

lemma cpath_zero (s g : Int × Int) : cpath s g 0 = s := by
  unfold cpath
  simp

lemma min_natCast_natAbs (d : Int) (k : ℕ) (hk : d.natAbs ≤ k) :
    min (k : Int) (d.natAbs : Int) = (d.natAbs : Int) :=
  min_eq_right (by exact_mod_cast hk)

lemma cpath_last (s g : Int × Int) : cpath s g (octSteps s g) = g := by
  obtain ⟨g1, g2⟩ := g
  obtain ⟨s1, s2⟩ := s
  unfold cpath octSteps
  simp only [Prod.mk.injEq]
  constructor
  · rw [min_natCast_natAbs _ _ (le_max_left _ _), Int.sign_mul_natAbs]
    ring
  · rw [min_natCast_natAbs _ _ (le_max_right _ _), Int.sign_mul_natAbs]
    ring

lemma natAbs_sign_mul_min (d : Int) (t : ℕ) :
    (Int.sign d * min (t : Int) (d.natAbs : Int)).natAbs = min t d.natAbs := by
  rcases Int.lt_trichotomy d 0 with h | h | h
  · rw [Int.sign_eq_neg_one_iff_neg.mpr h]
    rcases le_total (t : Int) (d.natAbs : Int) with h2 | h2 <;>
      [rw [min_eq_left h2]; rw [min_eq_right h2]] <;> omega
  · subst h
    simp
  · rw [Int.sign_eq_one_iff_pos.mpr h]
    rcases le_total (t : Int) (d.natAbs : Int) with h2 | h2 <;>
      [rw [min_eq_left h2]; rw [min_eq_right h2]] <;> omega

lemma natAbs_sub_sign_mul_min (d : Int) (t : ℕ) :
    (d - Int.sign d * min (t : Int) (d.natAbs : Int)).natAbs =
      d.natAbs - min t d.natAbs := by
  rcases Int.lt_trichotomy d 0 with h | h | h
  · rw [Int.sign_eq_neg_one_iff_neg.mpr h]
    rcases le_total (t : Int) (d.natAbs : Int) with h2 | h2 <;>
      [rw [min_eq_left h2]; rw [min_eq_right h2]] <;> omega
  · subst h
    simp
  · rw [Int.sign_eq_one_iff_pos.mpr h]
    rcases le_total (t : Int) (d.natAbs : Int) with h2 | h2 <;>
      [rw [min_eq_left h2]; rw [min_eq_right h2]] <;> omega

lemma octD_cpath_left (s g : Int × Int) (t : ℕ) :
    octD s (cpath s g t) =
      octN (min t (g.1 - s.1).natAbs) (min t (g.2 - s.2).natAbs) := by
  unfold octD cpath
  have h1 : (s.1 - (s.1 + Int.sign (g.1 - s.1) *
      min (t : Int) ((g.1 - s.1).natAbs : Int))) =
      -(Int.sign (g.1 - s.1) * min (t : Int) ((g.1 - s.1).natAbs : Int)) := by ring
  have h2 : (s.2 - (s.2 + Int.sign (g.2 - s.2) *
      min (t : Int) ((g.2 - s.2).natAbs : Int))) =
      -(Int.sign (g.2 - s.2) * min (t : Int) ((g.2 - s.2).natAbs : Int)) := by ring
  rw [h1, h2, Int.natAbs_neg, Int.natAbs_neg,
    natAbs_sign_mul_min, natAbs_sign_mul_min]

lemma octD_cpath_right (s g : Int × Int) (t : ℕ) :
    octD (cpath s g t) g =
      octN ((g.1 - s.1).natAbs - min t (g.1 - s.1).natAbs)
        ((g.2 - s.2).natAbs - min t (g.2 - s.2).natAbs) := by
  unfold octD cpath
  have h1 : (s.1 + Int.sign (g.1 - s.1) *
      min (t : Int) ((g.1 - s.1).natAbs : Int) - g.1) =
      -((g.1 - s.1) - Int.sign (g.1 - s.1) *
        min (t : Int) ((g.1 - s.1).natAbs : Int)) := by ring
  have h2 : (s.2 + Int.sign (g.2 - s.2) *
      min (t : Int) ((g.2 - s.2).natAbs : Int) - g.2) =
      -((g.2 - s.2) - Int.sign (g.2 - s.2) *
        min (t : Int) ((g.2 - s.2).natAbs : Int)) := by ring
  rw [h1, h2, Int.natAbs_neg, Int.natAbs_neg,
    natAbs_sub_sign_mul_min, natAbs_sub_sign_mul_min]

lemma octD_start_goal (s g : Int × Int) :
    octD s g = octN (g.1 - s.1).natAbs (g.2 - s.2).natAbs := by
  unfold octD
  rw [show (s.1 - g.1).natAbs = (g.1 - s.1).natAbs from by omega,
    show (s.2 - g.2).natAbs = (g.2 - s.2).natAbs from by omega]

lemma octN_min_split (a b t : ℕ) :
    octN (min t a) (min t b) + octN (a - min t a) (b - min t b) = octN a b := by
  rw [octN_val, octN_val, octN_val]
  rw [Nat.cast_min, Nat.cast_min,
    Nat.cast_sub (min_le_right t a), Nat.cast_sub (min_le_right t b),
    Nat.cast_min, Nat.cast_min]
  exact octNR_split (a : ℝ) (b : ℝ) (t : ℝ)

lemma octD_cpath_split (s g : Int × Int) (t : ℕ) :
    octD s (cpath s g t) + octD (cpath s g t) g = octD s g := by
  rw [octD_cpath_left, octD_cpath_right, octD_start_goal]
  exact octN_min_split _ _ _

lemma cpath_step_coord (d : Int) (t : ℕ) :
    Int.sign d * min ((t + 1 : ℕ) : Int) (d.natAbs : Int) -
      Int.sign d * min (t : Int) (d.natAbs : Int) =
    Int.sign d * (if t < d.natAbs then 1 else 0) := by
  rcases Int.lt_trichotomy d 0 with h | h | h
  · rw [Int.sign_eq_neg_one_iff_neg.mpr h]
    split <;> rename_i h2
    · rw [min_eq_left (by omega), min_eq_left (by omega)]
      push_cast
      ring
    · rw [min_eq_right (by omega), min_eq_right (by omega)]
      ring
  · subst h
    simp
  · rw [Int.sign_eq_one_iff_pos.mpr h]
    split <;> rename_i h2
    · rw [min_eq_left (by omega), min_eq_left (by omega)]
      push_cast
      ring
    · rw [min_eq_right (by omega), min_eq_right (by omega)]
      ring

lemma offsets_complete (d1 d2 : Int) (h1 : d1.natAbs <= 1) (h2 : d2.natAbs <= 1)
    (h0 : ¬(d1 = 0 ∧ d2 = 0)) :
    ∃ i, i < 8 ∧ dxs.getD i 0 = d1 ∧ dys.getD i 0 = d2 := by
  have hh1 : d1 = -1 ∨ d1 = 0 ∨ d1 = 1 := by omega
  have hh2 : d2 = -1 ∨ d2 = 0 ∨ d2 = 1 := by omega
  rcases hh1 with rfl | rfl | rfl <;> rcases hh2 with rfl | rfl | rfl <;>
    first
      | exact ⟨0, by decide⟩
      | exact ⟨1, by decide⟩
      | exact ⟨2, by decide⟩
      | exact ⟨3, by decide⟩
      | exact ⟨4, by decide⟩
      | exact ⟨5, by decide⟩
      | exact ⟨6, by decide⟩
      | exact ⟨7, by decide⟩
      | simp at h0

lemma cpath_step1 (s g : Int × Int) (t : ℕ) :
    (cpath s g (t + 1)).1 - (cpath s g t).1 =
      Int.sign (g.1 - s.1) * (if t < (g.1 - s.1).natAbs then 1 else 0) := by
  unfold cpath
  dsimp only
  rw [show s.1 + Int.sign (g.1 - s.1) * min ((t + 1 : ℕ) : Int) ((g.1 - s.1).natAbs : Int) -
      (s.1 + Int.sign (g.1 - s.1) * min (t : Int) ((g.1 - s.1).natAbs : Int)) =
      Int.sign (g.1 - s.1) * min ((t + 1 : ℕ) : Int) ((g.1 - s.1).natAbs : Int) -
      Int.sign (g.1 - s.1) * min (t : Int) ((g.1 - s.1).natAbs : Int) from by ring]
  exact cpath_step_coord _ _

lemma cpath_step2 (s g : Int × Int) (t : ℕ) :
    (cpath s g (t + 1)).2 - (cpath s g t).2 =
      Int.sign (g.2 - s.2) * (if t < (g.2 - s.2).natAbs then 1 else 0) := by
  unfold cpath
  dsimp only
  rw [show s.2 + Int.sign (g.2 - s.2) * min ((t + 1 : ℕ) : Int) ((g.2 - s.2).natAbs : Int) -
      (s.2 + Int.sign (g.2 - s.2) * min (t : Int) ((g.2 - s.2).natAbs : Int)) =
      Int.sign (g.2 - s.2) * min ((t + 1 : ℕ) : Int) ((g.2 - s.2).natAbs : Int) -
      Int.sign (g.2 - s.2) * min (t : Int) ((g.2 - s.2).natAbs : Int) from by ring]
  exact cpath_step_coord _ _

lemma cpath_step_adj (s g : Int × Int) (t : ℕ) (ht : t < octSteps s g) :
    ∃ i, i < 8 ∧ (cpath s g (t + 1)).1 = (cpath s g t).1 + dxs.getD i 0 ∧
      (cpath s g (t + 1)).2 = (cpath s g t).2 + dys.getD i 0 := by
  have h1 := cpath_step1 s g t
  have h2 := cpath_step2 s g t
  have hda : ((cpath s g (t + 1)).1 - (cpath s g t).1).natAbs ≤ 1 := by
    rw [h1]
    rcases Int.lt_trichotomy (g.1 - s.1) 0 with h | h | h
    · rw [Int.sign_eq_neg_one_iff_neg.mpr h]; split <;> omega
    · rw [h]; simp
    · rw [Int.sign_eq_one_iff_pos.mpr h]; split <;> omega
  have hdb : ((cpath s g (t + 1)).2 - (cpath s g t).2).natAbs ≤ 1 := by
    rw [h2]
    rcases Int.lt_trichotomy (g.2 - s.2) 0 with h | h | h
    · rw [Int.sign_eq_neg_one_iff_neg.mpr h]; split <;> omega
    · rw [h]; simp
    · rw [Int.sign_eq_one_iff_pos.mpr h]; split <;> omega
  have hne : ¬((cpath s g (t + 1)).1 - (cpath s g t).1 = 0 ∧
      (cpath s g (t + 1)).2 - (cpath s g t).2 = 0) := by
    rintro ⟨ha, hb⟩
    rw [h1] at ha
    rw [h2] at hb
    unfold octSteps at ht
    have hwh : t < (g.1 - s.1).natAbs ∨ t < (g.2 - s.2).natAbs := by omega
    rcases hwh with hw | hw
    · rw [if_pos hw] at ha
      have : g.1 - s.1 ≠ 0 := by omega
      rcases Int.lt_trichotomy (g.1 - s.1) 0 with h | h | h
      · rw [Int.sign_eq_neg_one_iff_neg.mpr h] at ha; omega
      · omega
      · rw [Int.sign_eq_one_iff_pos.mpr h] at ha; omega
    · rw [if_pos hw] at hb
      have : g.2 - s.2 ≠ 0 := by omega
      rcases Int.lt_trichotomy (g.2 - s.2) 0 with h | h | h
      · rw [Int.sign_eq_neg_one_iff_neg.mpr h] at hb; omega
      · omega
      · rw [Int.sign_eq_one_iff_pos.mpr h] at hb; omega
  obtain ⟨i, hi, hx, hy⟩ := offsets_complete _ _ hda hdb hne
  exact ⟨i, hi, by omega, by omega⟩

lemma heuristicSq_cpath_step (s g : Int × Int) (t : ℕ) :
    heuristicSq (cpath s g t).1 (cpath s g t).2
        (cpath s g (t + 1)).1 (cpath s g (t + 1)).2 =
      (if t < (g.1 - s.1).natAbs then 1 else 0) +
        (if t < (g.2 - s.2).natAbs then 1 else 0) := by
  have h1 := cpath_step1 s g t
  have h2 := cpath_step2 s g t
  unfold heuristicSq
  have e1 : ((cpath s g t).1 - (cpath s g (t + 1)).1) ^ 2 =
      ((if t < (g.1 - s.1).natAbs then 1 else 0) : Int) := by
    rw [show (cpath s g t).1 - (cpath s g (t + 1)).1 =
        -((cpath s g (t + 1)).1 - (cpath s g t).1) from by ring, neg_pow, h1]
    rcases Int.lt_trichotomy (g.1 - s.1) 0 with h | h | h
    · rw [Int.sign_eq_neg_one_iff_neg.mpr h]; split <;> ring
    · rw [h]
      split <;> rename_i hcon
      · exfalso; omega
      · simp
    · rw [Int.sign_eq_one_iff_pos.mpr h]; split <;> ring
  have e2 : ((cpath s g t).2 - (cpath s g (t + 1)).2) ^ 2 =
      ((if t < (g.2 - s.2).natAbs then 1 else 0) : Int) := by
    rw [show (cpath s g t).2 - (cpath s g (t + 1)).2 =
        -((cpath s g (t + 1)).2 - (cpath s g t).2) from by ring, neg_pow, h2]
    rcases Int.lt_trichotomy (g.2 - s.2) 0 with h | h | h
    · rw [Int.sign_eq_neg_one_iff_neg.mpr h]; split <;> ring
    · rw [h]
      split <;> rename_i hcon
      · exfalso; omega
      · simp
    · rw [Int.sign_eq_one_iff_pos.mpr h]; split <;> ring
  rw [e1, e2]
  split <;> split <;> rfl

lemma octD_cpath_succ (s g : Int × Int) (t : ℕ) (ht : t < octSteps s g) :
    octD s (cpath s g (t + 1)) =
      octD s (cpath s g t) + eucD (cpath s g t) (cpath s g (t + 1)) := by
  rw [octD_cpath_left, octD_cpath_left]
  unfold eucD
  rw [heuristicSq_cpath_step]
  unfold octSteps at ht
  by_cases hA : t < (g.1 - s.1).natAbs <;> by_cases hB : t < (g.2 - s.2).natAbs
  · rw [if_pos hA, if_pos hB,
      min_eq_left (by omega : t + 1 ≤ (g.1 - s.1).natAbs),
      min_eq_left (by omega : t + 1 ≤ (g.2 - s.2).natAbs),
      min_eq_left (by omega : t ≤ (g.1 - s.1).natAbs),
      min_eq_left (by omega : t ≤ (g.2 - s.2).natAbs)]
    rw [show t + 1 = t + 1 from rfl]
    rw [octN_succ_both]
    norm_num
  · rw [if_pos hA, if_neg hB,
      min_eq_left (by omega : t + 1 ≤ (g.1 - s.1).natAbs),
      min_eq_right (by omega : (g.2 - s.2).natAbs ≤ t + 1),
      min_eq_left (by omega : t ≤ (g.1 - s.1).natAbs),
      min_eq_right (by omega : (g.2 - s.2).natAbs ≤ t)]
    rw [octN_succ_left (by omega)]
    norm_num
  · rw [if_neg hA, if_pos hB,
      min_eq_right (by omega : (g.1 - s.1).natAbs ≤ t + 1),
      min_eq_left (by omega : t + 1 ≤ (g.2 - s.2).natAbs),
      min_eq_right (by omega : (g.1 - s.1).natAbs ≤ t),
      min_eq_left (by omega : t ≤ (g.2 - s.2).natAbs)]
    rw [octN_succ_right (by omega)]
    norm_num
  · exfalso; omega

lemma cpath_inB (rows cols : ℕ) (s g : Int × Int) (hs : inB rows cols s)
    (hg : inB rows cols g) (t : ℕ) : inB rows cols (cpath s g t) := by
  obtain ⟨hs1, hs2, hs3, hs4⟩ := hs
  obtain ⟨hg1, hg2, hg3, hg4⟩ := hg
  unfold cpath inB
  dsimp only
  refine ⟨?_, ?_, ?_, ?_⟩ <;>
    [rcases Int.lt_trichotomy (g.1 - s.1) 0 with h | h | h;
     rcases Int.lt_trichotomy (g.1 - s.1) 0 with h | h | h;
     rcases Int.lt_trichotomy (g.2 - s.2) 0 with h | h | h;
     rcases Int.lt_trichotomy (g.2 - s.2) 0 with h | h | h] <;>
    first
      | (rw [Int.sign_eq_neg_one_iff_neg.mpr h]
         rcases le_total (t : Int) (((g.1 - s.1).natAbs : ℕ) : Int) with h2 | h2 <;>
           [rw [min_eq_left h2]; rw [min_eq_right h2]] <;> omega)
      | (rw [Int.sign_eq_one_iff_pos.mpr h]
         rcases le_total (t : Int) (((g.1 - s.1).natAbs : ℕ) : Int) with h2 | h2 <;>
           [rw [min_eq_left h2]; rw [min_eq_right h2]] <;> omega)
      | (rw [Int.sign_eq_neg_one_iff_neg.mpr h]
         rcases le_total (t : Int) (((g.2 - s.2).natAbs : ℕ) : Int) with h2 | h2 <;>
           [rw [min_eq_left h2]; rw [min_eq_right h2]] <;> omega)
      | (rw [Int.sign_eq_one_iff_pos.mpr h]
         rcases le_total (t : Int) (((g.2 - s.2).natAbs : ℕ) : Int) with h2 | h2 <;>
           [rw [min_eq_left h2]; rw [min_eq_right h2]] <;> omega)
      | (rw [h]; simp; omega)

lemma octN_alt (a b : ℕ) :
    octN a b = (Real.sqrt 2 - 1) * ((a : ℝ) + b) +
      (2 - Real.sqrt 2) * max (a : ℝ) (b : ℝ) := by
  rw [octN_val]
  rcases le_total (a : ℝ) (b : ℝ) with h | h
  · rw [max_eq_right h, min_eq_left h]
    ring
  · rw [max_eq_left h, min_eq_right h]
    ring

lemma octN_subadd (a1 b1 a2 b2 : ℕ) :
    octN (a1 + a2) (b1 + b2) ≤ octN a1 b1 + octN a2 b2 := by
  rw [octN_alt, octN_alt, octN_alt]
  push_cast
  have hmax : max ((a1 : ℝ) + a2) ((b1 : ℝ) + b2) ≤
      max (a1 : ℝ) (b1 : ℝ) + max (a2 : ℝ) (b2 : ℝ) := by
    apply max_le <;> [skip; skip] <;>
      [exact add_le_add (le_max_left _ _) (le_max_left _ _);
       exact add_le_add (le_max_right _ _) (le_max_right _ _)]
  nlinarith [sqrt2_lt_two, hmax]

lemma octN_mono {a b c d : ℕ} (h1 : a ≤ c) (h2 : b ≤ d) :
    octN a b ≤ octN c d := by
  rw [octN_alt, octN_alt]
  have h1' : (a : ℝ) ≤ (c : ℝ) := by exact_mod_cast h1
  have h2' : (b : ℝ) ≤ (d : ℝ) := by exact_mod_cast h2
  have hmax : max (a : ℝ) (b : ℝ) ≤ max (c : ℝ) (d : ℝ) :=
    max_le (h1'.trans (le_max_left _ _)) (h2'.trans (le_max_right _ _))
  nlinarith [one_lt_sqrt2, sqrt2_lt_two, hmax]

lemma octD_triangle (u v w : Int × Int) : octD u w ≤ octD u v + octD v w := by
  unfold octD
  have h1 : (u.1 - w.1).natAbs ≤ (u.1 - v.1).natAbs + (v.1 - w.1).natAbs := by omega
  have h2 : (u.2 - w.2).natAbs ≤ (u.2 - v.2).natAbs + (v.2 - w.2).natAbs := by omega
  calc octN (u.1 - w.1).natAbs (u.2 - w.2).natAbs
      ≤ octN ((u.1 - v.1).natAbs + (v.1 - w.1).natAbs)
          ((u.2 - v.2).natAbs + (v.2 - w.2).natAbs) := octN_mono h1 h2
    _ ≤ _ := octN_subadd _ _ _ _

lemma natAbs_sub_add (x d : Int) : (x - (x + d)).natAbs = d.natAbs := by omega

lemma octD_offset (x y d e : Int) :
    octD (x, y) (x + d, y + e) = octN d.natAbs e.natAbs := by
  unfold octD
  dsimp only
  rw [natAbs_sub_add, natAbs_sub_add]

lemma eucD_offset (x y d e : Int) :
    eucD (x, y) (x + d, y + e) = Real.sqrt (((d ^ 2 + e ^ 2).toNat : ℕ) : ℝ) := by
  unfold eucD
  rw [heuristicSq_shift]

lemma octD_step_eq_eucD (x y : Int) {i : ℕ} (hi : i < 8) :
    octD (x, y) (x + dxs.getD i 0, y + dys.getD i 0) =
      eucD (x, y) (x + dxs.getD i 0, y + dys.getD i 0) := by
  interval_cases i <;>
    simp only [dxs, dys, List.getD_cons_zero, List.getD_cons_succ] <;>
    rw [octD_offset, eucD_offset] <;>
    norm_num [octN_val] <;>
    first
      | rw [Real.sqrt_one]
      | (rw [show Int.toNat 2 = 2 from rfl]; norm_num)

lemma WFG.g_steps {start goal : Int × Int} {n : SNode} (hn : WFG start goal n) :
    ∀ m ∈ n.g, m = 1 ∨ m = 2 := by
  induction hn with
  | root => intro m hm; simp [SNode.g] at hm
  | step p i hi hp ih =>
    intro m hm
    simp only [SNode.g] at hm
    rcases List.mem_append.mp hm with hm | hm
    · exact ih m hm
    · rcases List.mem_singleton.mp hm with rfl
      exact heuristicSq_step hi p.x p.y

lemma WFG.hRad_eq {start goal : Int × Int} {n : SNode} (hn : WFG start goal n) :
    n.hRad = heuristicSq n.x n.y goal.1 goal.2 := by
  cases hn with
  | root => rfl
  | step p i hi hp => rfl

lemma WFG.f_shape {start goal : Int × Int} {n : SNode} (hn : WFG start goal n) :
    n.f = n.g ++ [n.hRad] ∨ (n.f = [] ∧ n.g = []) := by
  cases hn with
  | root => right; exact ⟨rfl, rfl⟩
  | step p i hi hp => left; rfl

lemma costVal_nonneg (c : Cost) : 0 ≤ costVal c := by
  unfold costVal
  apply List.sum_nonneg
  intro x hx
  rcases List.mem_map.mp hx with ⟨n, _, rfl⟩
  exact Real.sqrt_nonneg _

lemma WFG.normOk_g {start goal : Int × Int} {n : SNode} (hn : WFG start goal n) :
    NormOk n.g := by
  unfold NormOk
  have h0 : n.g.countP bigRad = 0 :=
    List.countP_eq_zero.mpr (fun m hm => by
      rcases hn.g_steps m hm with rfl | rfl <;> decide)
  omega

lemma WFG.normOk_f {start goal : Int × Int} {n : SNode} (hn : WFG start goal n) :
    NormOk n.f := by
  rcases hn.f_shape with h | h
  · rw [h]
    exact normOk_of_steps (fun m hm => by rcases hn.g_steps m hm with rfl | rfl <;> omega) _
  · rw [h.1]
    unfold NormOk
    simp

lemma WFG.f_le {start goal : Int × Int} {n : SNode} (hn : WFG start goal n) :
    costVal n.f ≤ costVal n.g + Real.sqrt ((n.hRad : ℕ) : ℝ) := by
  rcases hn.f_shape with h | h
  · rw [h, costVal_concat]
  · rw [h.1, costVal_nil]
    have := costVal_nonneg n.g
    have := Real.sqrt_nonneg ((n.hRad : ℕ) : ℝ)
    linarith

lemma WFG.g_le_f {start goal : Int × Int} {n : SNode} (hn : WFG start goal n)
    (hne : ¬(n.x = start.1 ∧ n.y = start.2)) : costVal n.g ≤ costVal n.f := by
  cases hn with
  | root => exact absurd ⟨rfl, rfl⟩ hne
  | step p i hi hp =>
    simp only [SNode.f, SNode.g]
    conv_rhs => rw [costVal_concat]
    have := Real.sqrt_nonneg ((heuristicSq (p.x + dxs.getD i 0)
      (p.y + dys.getD i 0) goal.1 goal.2 : ℕ) : ℝ)
    linarith

lemma WFG.path_len {start goal : Int × Int} {n : SNode} (hn : WFG start goal n) :
    (reconstructPath n).length = n.g.length + 1 := by
  induction hn with
  | root => rfl
  | step p i hi hp ih =>
    simp only [reconstructPath, SNode.g, List.length_append, ih, List.length_append]
    simp

lemma WFG.g_lower {start goal : Int × Int} {n : SNode} (hn : WFG start goal n) :
    octD start (n.x, n.y) ≤ costVal n.g := by
  induction hn with
  | root =>
    simp only [SNode.x, SNode.y, SNode.g]
    rw [show (start.1, start.2) = start from rfl, octD_self, costVal_nil]
  | step p i hi hp ih =>
    simp only [SNode.x, SNode.y, SNode.g]
    rw [costVal_concat]
    calc octD start (p.x + dxs.getD i 0, p.y + dys.getD i 0)
        ≤ octD start (p.x, p.y) +
            octD (p.x, p.y) (p.x + dxs.getD i 0, p.y + dys.getD i 0) :=
          octD_triangle _ _ _
      _ ≤ costVal p.g +
            eucD (p.x, p.y) (p.x + dxs.getD i 0, p.y + dys.getD i 0) := by
          rw [octD_step_eq_eucD p.x p.y hi]
          exact add_le_add_right ih _
      _ = _ := by
          unfold eucD
          rfl

/-! ### Open-list extraction and 2-D array lemmas -/

lemma extractMin_eq_none {l : List SNode} : extractMin l = none ↔ l = [] := by
  cases l with
  | nil => simp [extractMin]
  | cons n ns =>
    constructor
    · intro h
      rw [extractMin] at h
      rcases hrec : extractMin ns with _ | pr
      · rw [hrec] at h
        simp at h
      · obtain ⟨m, rest⟩ := pr
        rw [hrec] at h
        dsimp only at h
        split at h <;> simp at h
    · intro h
      exact absurd h (List.cons_ne_nil _ _)

lemma extractMin_perm : ∀ {l : List SNode} {m : SNode} {rest : List SNode},
    extractMin l = some (m, rest) → l.Perm (m :: rest) := by
  intro l
  induction l with
  | nil => intro m rest h; simp [extractMin] at h
  | cons n ns ih =>
    intro m rest h
    rw [extractMin] at h
    rcases hrec : extractMin ns with _ | pr
    · rw [hrec] at h
      have hns : ns = [] := extractMin_eq_none.mp hrec
      simp only [Option.some.injEq, Prod.mk.injEq] at h
      subst hns
      rw [← h.1, ← h.2]
    · obtain ⟨m2, rest2⟩ := pr
      rw [hrec] at h
      dsimp only at h
      split at h <;> simp only [Option.some.injEq, Prod.mk.injEq] at h
      · obtain ⟨h1, h2⟩ := h
        subst h1
        subst h2
        exact ((ih hrec).cons n).trans (List.Perm.swap _ _ _)
      · obtain ⟨h1, h2⟩ := h
        subst h1
        subst h2
        exact List.Perm.refl _

lemma extractMin_min : ∀ {l : List SNode} {m : SNode} {rest : List SNode},
    extractMin l = some (m, rest) → (∀ x ∈ l, NormOk x.f) →
    ∀ x ∈ l, costVal m.f ≤ costVal x.f := by
  intro l
  induction l with
  | nil => intro m rest h; simp [extractMin] at h
  | cons n ns ih =>
    intro m rest h hok x hx
    rw [extractMin] at h
    rcases hrec : extractMin ns with _ | pr
    · rw [hrec] at h
      have hns : ns = [] := extractMin_eq_none.mp hrec
      subst hns
      simp only [Option.some.injEq, Prod.mk.injEq] at h
      rcases List.mem_singleton.mp hx with rfl
      rw [← h.1]
    · obtain ⟨m2, rest2⟩ := pr
      rw [hrec] at h
      dsimp only at h
      split at h <;> rename_i hlt <;>
        simp only [Option.some.injEq, Prod.mk.injEq] at h
      · obtain ⟨h1, h2⟩ := h
        subst h1
        have hm2 : m2 ∈ ns := extractMin_mem hrec
        rcases List.mem_cons.mp hx with rfl | hx
        · exact ((ltCost_spec (hok _ (List.mem_cons_of_mem _ hm2))
            (hok _ (List.mem_cons_self _ _))).mp hlt).le
        · exact ih hrec (fun y hy => hok y (List.mem_cons_of_mem _ hy)) x hx
      · obtain ⟨h1, h2⟩ := h
        subst h1
        have hm2 : m2 ∈ ns := extractMin_mem hrec
        rcases List.mem_cons.mp hx with rfl | hx
        · exact le_refl _
        · have hle := ih hrec (fun y hy => hok y (List.mem_cons_of_mem _ hy)) x hx
          have hge : costVal n.f ≤ costVal m2.f := by
            by_contra hcon
            push_neg at hcon
            exact hlt ((ltCost_spec (hok _ (List.mem_cons_of_mem _ hm2))
              (hok _ (List.mem_cons_self _ _))).mpr hcon)
          exact hge.trans hle

lemma getD_set_self {α : Type} (l : List α) (i : ℕ) (v d : α) (h : i < l.length) :
    (l.set i v).getD i d = v := by
  rw [List.getD_eq_getElem?_getD, List.getElem?_set_self (by simpa using h)]
  rfl

lemma getD_set_ne {α : Type} (l : List α) (i j : ℕ) (v d : α) (h : i ≠ j) :
    (l.set i v).getD j d = l.getD j d := by
  rw [List.getD_eq_getElem?_getD, List.getElem?_set_ne h, ← List.getD_eq_getElem?_getD]

lemma get2d_set2d_self {α : Type} (m : List (List α)) (x y : Int) (v d : α)
    (hx : x.toNat < m.length) (hy : y.toNat < (m.getD x.toNat []).length) :
    get2d (set2d m x y v) x y d = v := by
  unfold get2d set2d
  rw [getD_set_self _ _ _ _ (by simpa using hx)]
  rw [getD_set_self _ _ _ _ hy]

lemma get2d_set2d_ne {α : Type} (m : List (List α)) (x y a b : Int) (v d : α)
    (hx : 0 ≤ x) (hy : 0 ≤ y) (ha : 0 ≤ a) (hb : 0 ≤ b)
    (hne : ¬(a = x ∧ b = y)) :
    get2d (set2d m x y v) a b d = get2d m a b d := by
  unfold get2d set2d
  by_cases hax : a.toNat = x.toNat
  · have hax' : a = x := by omega
    subst hax'
    have hby : y.toNat ≠ b.toNat := by
      intro hcon
      exact hne ⟨rfl, by omega⟩
    by_cases hlen : a.toNat < m.length
    · rw [getD_set_self _ _ _ _ hlen, getD_set_ne _ _ _ _ _ hby]
    · rw [List.set_eq_of_length_le (by omega)]
  · rw [getD_set_ne _ _ _ _ _ (fun hcon => hax hcon.symm)]

lemma set2d_length {α : Type} (m : List (List α)) (x y : Int) (v : α) :
    (set2d m x y v).length = m.length := by
  unfold set2d
  rw [List.length_set]

lemma expandDir_closed (rows cols : ℕ) (goal : Int × Int) (cur : SNode)
    (st : AState) (i : ℕ) : (expandDir rows cols goal cur st i).closed = st.closed := by
  unfold expandDir
  dsimp only
  split
  · rfl
  · split <;> rfl

lemma expandDir_disj (rows cols : ℕ) (goal : Int × Int) (cur : SNode)
    (st : AState) (i : ℕ) :
    expandDir rows cols goal cur st i = st ∨
    (isValid (cur.x + dxs.getD i 0) (cur.y + dys.getD i 0) rows cols st.grid = true ∧
      get2d st.closed (cur.x + dxs.getD i 0) (cur.y + dys.getD i 0) false = false ∧
      (get2d st.allNodes (cur.x + dxs.getD i 0) (cur.y + dys.getD i 0) none = none ∨
        (∃ stored, get2d st.allNodes (cur.x + dxs.getD i 0) (cur.y + dys.getD i 0) none =
            some stored ∧ ltCost (mkNbr goal cur i).f stored.f = true)) ∧
      expandDir rows cols goal cur st i =
        { st with
          allNodes := set2d st.allNodes (cur.x + dxs.getD i 0) (cur.y + dys.getD i 0)
            (some (mkNbr goal cur i)),
          openList := mkNbr goal cur i :: st.openList }) := by
  by_cases hv : isValid (cur.x + dxs.getD i 0) (cur.y + dys.getD i 0) rows cols st.grid = true
  · by_cases hc : get2d st.closed (cur.x + dxs.getD i 0) (cur.y + dys.getD i 0) false = true
    · left
      simp only [expandDir]
      rw [hv, hc]
      simp
    · have hc2 : get2d st.closed (cur.x + dxs.getD i 0) (cur.y + dys.getD i 0) false = false :=
        Bool.eq_false_iff.mpr hc
      rcases hrec : get2d st.allNodes (cur.x + dxs.getD i 0) (cur.y + dys.getD i 0) none
        with _ | stored
      · right
        refine ⟨hv, hc2, Or.inl rfl, ?_⟩
        simp only [expandDir]
        rw [hv, hc2]
        rw [if_neg (by decide)]
        rw [hrec]
        rfl
      · by_cases hlt : ltCost (mkNbr goal cur i).f stored.f = true
        · right
          refine ⟨hv, hc2, Or.inr ⟨stored, rfl, hlt⟩, ?_⟩
          simp only [expandDir]
          rw [hv, hc2]
          rw [if_neg (by decide)]
          rw [hrec]
          dsimp only
          rw [show ltCost ((cur.g ++ [heuristicSq cur.x cur.y (cur.x + dxs.getD i 0)
              (cur.y + dys.getD i 0)]) ++ [heuristicSq (cur.x + dxs.getD i 0)
              (cur.y + dys.getD i 0) goal.1 goal.2]) stored.f = true from hlt]
          rw [if_pos rfl]
          rfl
        · left
          have hlt2 : ltCost (mkNbr goal cur i).f stored.f = false := Bool.eq_false_iff.mpr hlt
          simp only [expandDir]
          rw [hv, hc2]
          rw [if_neg (by decide)]
          rw [hrec]
          dsimp only
          rw [show ltCost ((cur.g ++ [heuristicSq cur.x cur.y (cur.x + dxs.getD i 0)
              (cur.y + dys.getD i 0)]) ++ [heuristicSq (cur.x + dxs.getD i 0)
              (cur.y + dys.getD i 0) goal.1 goal.2]) stored.f = false from hlt2]
          rw [if_neg (by decide)]
  · left
    have hv2 : isValid (cur.x + dxs.getD i 0) (cur.y + dys.getD i 0) rows cols st.grid = false :=
      Bool.eq_false_iff.mpr hv
    simp only [expandDir]
    rw [hv2]
    simp

lemma getD_mem_of_lt {α : Type} (l : List α) (i : ℕ) (d : α) (h : i < l.length) :
    l.getD i d ∈ l := by
  rw [List.getD_eq_getElem?_getD, List.getElem?_eq_getElem h]
  exact List.getElem_mem _

lemma set2d_rect {α : Type} {rows cols : ℕ} {m : List (List α)} (x y : Int) (v : α)
    (hm : Rect rows cols m) : Rect rows cols (set2d m x y v) := by
  obtain ⟨h1, h2⟩ := hm
  by_cases hx : x.toNat < m.length
  · refine ⟨by rw [set2d_length, h1], ?_⟩
    intro row hrow
    unfold set2d at hrow
    rcases List.mem_or_eq_of_mem_set hrow with h | h
    · exact h2 row h
    · subst h
      rw [List.length_set]
      exact h2 _ (getD_mem_of_lt _ _ _ hx)
  · unfold set2d
    rw [List.set_eq_of_length_le (by omega)]
    exact ⟨h1, h2⟩

lemma get2d_rect_self {α : Type} {rows cols : ℕ} {m : List (List α)}
    (hm : Rect rows cols m) (x y : Int) (v d : α)
    (hx : 0 ≤ x) (hx2 : x < (rows : Int)) (hy : 0 ≤ y) (hy2 : y < (cols : Int)) :
    get2d (set2d m x y v) x y d = v := by
  obtain ⟨h1, h2⟩ := hm
  apply get2d_set2d_self
  · omega
  · rw [h2 _ (getD_mem_of_lt _ _ _ (by omega))]
    omega

lemma isValid_bounds {x y : Int} {rows cols : ℕ} {grid : List (List Int)}
    (h : isValid x y rows cols grid = true) :
    0 ≤ x ∧ x < (rows : Int) ∧ 0 ≤ y ∧ y < (cols : Int) := by
  simp only [isValid, Bool.and_eq_true, decide_eq_true_eq] at h
  exact ⟨h.1.1.1.1, h.1.1.1.2, h.1.1.2, h.1.2⟩

lemma expandDir_rect {rows cols : ℕ} (goal : Int × Int) (cur : SNode)
    (st : AState) (i : ℕ) (h : Rect rows cols st.allNodes) :
    Rect rows cols (expandDir rows cols goal cur st i).allNodes := by
  rcases expandDir_disj rows cols goal cur st i with he | ⟨_, _, _, he⟩ <;> rw [he]
  · exact h
  · exact set2d_rect _ _ _ h

lemma foldl_expandDir_rect {rows cols : ℕ} (goal : Int × Int) (cur : SNode)
    (l : List ℕ) : ∀ st : AState, Rect rows cols st.allNodes →
    Rect rows cols ((l.foldl (expandDir rows cols goal cur) st)).allNodes := by
  induction l with
  | nil => intro st h; exact h
  | cons a l ih =>
    intro st h
    rw [List.foldl_cons]
    exact ih _ (expandDir_rect goal cur st a h)

lemma foldl_expandDir_closed {rows cols : ℕ} (goal : Int × Int) (cur : SNode)
    (l : List ℕ) : ∀ st : AState,
    ((l.foldl (expandDir rows cols goal cur) st)).closed = st.closed := by
  induction l with
  | nil => intro st; rfl
  | cons a l ih =>
    intro st
    rw [List.foldl_cons, ih, expandDir_closed]

lemma expandDir_open_sup {rows cols : ℕ} (goal : Int × Int) (cur : SNode)
    (st : AState) (i : ℕ) :
    ∀ n ∈ st.openList, n ∈ (expandDir rows cols goal cur st i).openList := by
  rcases expandDir_disj rows cols goal cur st i with he | ⟨_, _, _, he⟩ <;> rw [he] <;>
    intro n hn
  · exact hn
  · exact List.mem_cons_of_mem _ hn

lemma foldl_expandDir_open_sup {rows cols : ℕ} (goal : Int × Int) (cur : SNode)
    (l : List ℕ) : ∀ (st : AState), ∀ n ∈ st.openList,
    n ∈ ((l.foldl (expandDir rows cols goal cur) st)).openList := by
  induction l with
  | nil => intro st n hn; exact hn
  | cons a l ih =>
    intro st n hn
    rw [List.foldl_cons]
    exact ih _ n (expandDir_open_sup goal cur st a n hn)

lemma expandDir_open_new {rows cols : ℕ} (goal : Int × Int) (cur : SNode)
    (st : AState) (i : ℕ) :
    ∀ n ∈ (expandDir rows cols goal cur st i).openList,
      n ∈ st.openList ∨ (n = mkNbr goal cur i ∧
        isValid (cur.x + dxs.getD i 0) (cur.y + dys.getD i 0) rows cols st.grid = true) := by
  rcases expandDir_disj rows cols goal cur st i with he | ⟨hv, _, _, he⟩ <;> rw [he] <;>
    intro n hn
  · exact Or.inl hn
  · rcases List.mem_cons.mp hn with h | h
    · exact Or.inr ⟨h, hv⟩
    · exact Or.inl h

lemma foldl_expandDir_open_new {rows cols : ℕ} (goal : Int × Int) (cur : SNode)
    (l : List ℕ) : ∀ (st : AState), ∀ n ∈ ((l.foldl (expandDir rows cols goal cur) st)).openList,
    n ∈ st.openList ∨ ∃ i ∈ l, n = mkNbr goal cur i ∧
      isValid (cur.x + dxs.getD i 0) (cur.y + dys.getD i 0) rows cols st.grid = true := by
  induction l with
  | nil => intro st n hn; exact Or.inl hn
  | cons a l ih =>
    intro st n hn
    rw [List.foldl_cons] at hn
    rcases ih _ n hn with h | ⟨i, hi, h, hvi⟩
    · rcases expandDir_open_new goal cur st a n h with h2 | h2
      · exact Or.inl h2
      · exact Or.inr ⟨a, List.mem_cons_self _ _, h2⟩
    · rw [expandDir_grid] at hvi
      exact Or.inr ⟨i, List.mem_cons_of_mem _ hi, h, hvi⟩

lemma expandDir_allNodes_ne {rows cols : ℕ} (goal : Int × Int) (cur : SNode)
    (st : AState) (i : ℕ) (x y : Int) (hx : 0 ≤ x) (hy : 0 ≤ y)
    (hne : ¬(x = cur.x + dxs.getD i 0 ∧ y = cur.y + dys.getD i 0)) :
    get2d (expandDir rows cols goal cur st i).allNodes x y none =
      get2d st.allNodes x y none := by
  rcases expandDir_disj rows cols goal cur st i with he | ⟨hv, _, _, he⟩ <;> rw [he]
  · obtain ⟨h1, h2, h3, h4⟩ := isValid_bounds hv
    exact get2d_set2d_ne _ _ _ _ _ _ _ h1 h3 hx hy hne

lemma foldl_expandDir_allNodes_ne {rows cols : ℕ} (goal : Int × Int) (cur : SNode)
    (l : List ℕ) : ∀ (st : AState) (x y : Int), 0 ≤ x → 0 ≤ y →
    (∀ i ∈ l, ¬(x = cur.x + dxs.getD i 0 ∧ y = cur.y + dys.getD i 0)) →
    get2d ((l.foldl (expandDir rows cols goal cur) st)).allNodes x y none =
      get2d st.allNodes x y none := by
  induction l with
  | nil => intro st x y _ _ _; rfl
  | cons a l ih =>
    intro st x y hx hy hne
    rw [List.foldl_cons,
      ih _ x y hx hy (fun i hi => hne i (List.mem_cons_of_mem _ hi)),
      expandDir_allNodes_ne goal cur st a x y hx hy (hne a (List.mem_cons_self _ _))]

lemma offsets_distinct : ∀ i, i < 8 → ∀ j, j < 8 → i ≠ j →
    ¬(dxs.getD i 0 = dxs.getD j 0 ∧ dys.getD i 0 = dys.getD j 0) := by decide

lemma targets_ne (cur : SNode) {i j : ℕ} (hi : i < 8) (hj : j < 8) (hij : i ≠ j) :
    ¬(cur.x + dxs.getD i 0 = cur.x + dxs.getD j 0 ∧
      cur.y + dys.getD i 0 = cur.y + dys.getD j 0) := by
  rintro ⟨h1, h2⟩
  exact offsets_distinct i hi j hj hij ⟨by omega, by omega⟩

lemma expandDir_coverage1 {rows cols : ℕ} (goal : Int × Int) (cur : SNode)
    (st : AState) (i : ℕ)
    (hv : isValid (cur.x + dxs.getD i 0) (cur.y + dys.getD i 0) rows cols st.grid = true)
    (hc : get2d st.closed (cur.x + dxs.getD i 0) (cur.y + dys.getD i 0) false = false)
    (hrect : Rect rows cols st.allNodes) :
    (get2d (expandDir rows cols goal cur st i).allNodes
        (cur.x + dxs.getD i 0) (cur.y + dys.getD i 0) none = some (mkNbr goal cur i) ∧
      mkNbr goal cur i ∈ (expandDir rows cols goal cur st i).openList) ∨
    (∃ stored, get2d st.allNodes (cur.x + dxs.getD i 0) (cur.y + dys.getD i 0) none =
        some stored ∧ ltCost (mkNbr goal cur i).f stored.f = false ∧
      expandDir rows cols goal cur st i = st) := by
  obtain ⟨hb1, hb2, hb3, hb4⟩ := isValid_bounds hv
  rcases hrec : get2d st.allNodes (cur.x + dxs.getD i 0) (cur.y + dys.getD i 0) none
    with _ | stored
  · left
    have he : expandDir rows cols goal cur st i =
        { st with
          allNodes := set2d st.allNodes (cur.x + dxs.getD i 0) (cur.y + dys.getD i 0)
            (some (mkNbr goal cur i)),
          openList := mkNbr goal cur i :: st.openList } := by
      simp only [expandDir]
      rw [hv, hc]
      rw [if_neg (by decide)]
      rw [hrec]
      rfl
    rw [he]
    exact ⟨get2d_rect_self hrect _ _ _ _ hb1 hb2 hb3 hb4, List.mem_cons_self _ _⟩
  · by_cases hlt : ltCost (mkNbr goal cur i).f stored.f = true
    · left
      have he : expandDir rows cols goal cur st i =
          { st with
            allNodes := set2d st.allNodes (cur.x + dxs.getD i 0) (cur.y + dys.getD i 0)
              (some (mkNbr goal cur i)),
            openList := mkNbr goal cur i :: st.openList } := by
        simp only [expandDir]
        rw [hv, hc]
        rw [if_neg (by decide)]
        rw [hrec]
        dsimp only
        rw [show ltCost ((cur.g ++ [heuristicSq cur.x cur.y (cur.x + dxs.getD i 0)
            (cur.y + dys.getD i 0)]) ++ [heuristicSq (cur.x + dxs.getD i 0)
            (cur.y + dys.getD i 0) goal.1 goal.2]) stored.f = true from hlt]
        rw [if_pos rfl]
        rfl
      rw [he]
      exact ⟨get2d_rect_self hrect _ _ _ _ hb1 hb2 hb3 hb4, List.mem_cons_self _ _⟩
    · right
      refine ⟨stored, rfl, Bool.eq_false_iff.mpr hlt, ?_⟩
      simp only [expandDir]
      rw [hv, hc]
      rw [if_neg (by decide)]
      rw [hrec]
      dsimp only
      rw [show ltCost ((cur.g ++ [heuristicSq cur.x cur.y (cur.x + dxs.getD i 0)
          (cur.y + dys.getD i 0)]) ++ [heuristicSq (cur.x + dxs.getD i 0)
          (cur.y + dys.getD i 0) goal.1 goal.2]) stored.f = false from
        Bool.eq_false_iff.mpr hlt]
      rw [if_neg (by decide)]

lemma foldl_expandDir_desc {rows cols : ℕ} (goal : Int × Int) (cur : SNode)
    (l : List ℕ) : ∀ (st : AState), (∀ j ∈ l, j < 8) → l.Nodup →
    Rect rows cols st.allNodes →
    ∀ x y : Int, 0 ≤ x → 0 ≤ y →
    (get2d ((l.foldl (expandDir rows cols goal cur) st)).allNodes x y none =
      get2d st.allNodes x y none) ∨
    ∃ i ∈ l, x = cur.x + dxs.getD i 0 ∧ y = cur.y + dys.getD i 0 ∧
      isValid x y rows cols st.grid = true ∧
      get2d ((l.foldl (expandDir rows cols goal cur) st)).allNodes x y none =
        some (mkNbr goal cur i) ∧
      mkNbr goal cur i ∈ ((l.foldl (expandDir rows cols goal cur) st)).openList ∧
      (get2d st.allNodes x y none = none ∨
        ∃ stored, get2d st.allNodes x y none = some stored ∧
          ltCost (mkNbr goal cur i).f stored.f = true) := by
  induction l with
  | nil => intro st _ _ _ x y _ _; left; rfl
  | cons a l ih =>
    intro st hl8 hnd hrect x y hx hy
    simp only [List.foldl_cons]
    have ha8 : a < 8 := hl8 a (List.mem_cons_self _ _)
    have hl8' : ∀ j ∈ l, j < 8 := fun j hj => hl8 j (List.mem_cons_of_mem _ hj)
    have hnd' : l.Nodup := hnd.of_cons
    have hanotin : a ∉ l := (List.nodup_cons.mp hnd).1
    have hrect' : Rect rows cols (expandDir rows cols goal cur st a).allNodes :=
      expandDir_rect goal cur st a hrect
    rcases ih (expandDir rows cols goal cur st a) hl8' hnd' hrect' x y hx hy with
      hsame | ⟨i, hil, hxi, hyi, hvi, hrecF, hopenF, hcnd⟩
    · by_cases hxy : x = cur.x + dxs.getD a 0 ∧ y = cur.y + dys.getD a 0
      · rcases expandDir_disj rows cols goal cur st a with he | ⟨hv, hc, hcnd_a, he⟩
        · left
          rw [hsame, he]
        · right
          obtain ⟨hb1, hb2, hb3, hb4⟩ := isValid_bounds hv
          refine ⟨a, List.mem_cons_self _ _, hxy.1, hxy.2,
            by rw [hxy.1, hxy.2]; exact hv, ?_, ?_,
            by rw [hxy.1, hxy.2]; exact hcnd_a⟩
          · rw [hsame, he]
            dsimp only
            rw [hxy.1, hxy.2]
            exact get2d_rect_self hrect _ _ _ _ hb1 hb2 hb3 hb4
          · apply foldl_expandDir_open_sup
            rw [he]
            exact List.mem_cons_self _ _
      · left
        rw [hsame, expandDir_allNodes_ne goal cur st a x y hx hy hxy]
    · have hia : i ≠ a := fun hcon => hanotin (hcon ▸ hil)
      have hne : ¬(x = cur.x + dxs.getD a 0 ∧ y = cur.y + dys.getD a 0) := by
        rintro ⟨h1, h2⟩
        exact targets_ne cur (hl8' i hil) ha8 hia ⟨by omega, by omega⟩
      right
      rw [expandDir_grid] at hvi
      refine ⟨i, List.mem_cons_of_mem _ hil, hxi, hyi, hvi, hrecF, hopenF, ?_⟩
      rw [← expandDir_allNodes_ne goal cur st a x y hx hy hne]
      exact hcnd

lemma foldl_expandDir_coverage {rows cols : ℕ} (goal : Int × Int) (cur : SNode)
    (l : List ℕ) : ∀ (st : AState), (∀ j ∈ l, j < 8) → l.Nodup →
    Rect rows cols st.allNodes →
    ∀ i ∈ l,
    isValid (cur.x + dxs.getD i 0) (cur.y + dys.getD i 0) rows cols st.grid = true →
    get2d st.closed (cur.x + dxs.getD i 0) (cur.y + dys.getD i 0) false = false →
    (get2d ((l.foldl (expandDir rows cols goal cur) st)).allNodes
        (cur.x + dxs.getD i 0) (cur.y + dys.getD i 0) none = some (mkNbr goal cur i) ∧
      mkNbr goal cur i ∈ ((l.foldl (expandDir rows cols goal cur) st)).openList) ∨
    (∃ stored, get2d st.allNodes
        (cur.x + dxs.getD i 0) (cur.y + dys.getD i 0) none = some stored ∧
      ltCost (mkNbr goal cur i).f stored.f = false ∧
      get2d ((l.foldl (expandDir rows cols goal cur) st)).allNodes
        (cur.x + dxs.getD i 0) (cur.y + dys.getD i 0) none = some stored) := by
  induction l with
  | nil => intro st _ _ _ i hi; exact absurd hi (List.not_mem_nil _)
  | cons a l ih =>
    intro st hl8 hnd hrect i hil hv hc
    simp only [List.foldl_cons]
    have ha8 : a < 8 := hl8 a (List.mem_cons_self _ _)
    have hl8' : ∀ j ∈ l, j < 8 := fun j hj => hl8 j (List.mem_cons_of_mem _ hj)
    have hnd' : l.Nodup := hnd.of_cons
    have hanotin : a ∉ l := (List.nodup_cons.mp hnd).1
    obtain ⟨hb1, hb2, hb3, hb4⟩ := isValid_bounds hv
    rcases List.mem_cons.mp hil with rfl | hil'
    · have huntouched : ∀ j ∈ l,
          ¬(cur.x + dxs.getD i 0 = cur.x + dxs.getD j 0 ∧
            cur.y + dys.getD i 0 = cur.y + dys.getD j 0) := by
        intro j hj
        exact targets_ne cur ha8 (hl8' j hj) (fun hcon => hanotin (hcon ▸ hj))
      rcases expandDir_coverage1 goal cur st i hv hc hrect with
        ⟨hrec2, hopen2⟩ | ⟨stored, hst, hlt, he⟩
      · left
        constructor
        · rw [foldl_expandDir_allNodes_ne goal cur l _ _ _ hb1 hb3 huntouched]
          exact hrec2
        · exact foldl_expandDir_open_sup goal cur l _ _ hopen2
      · right
        refine ⟨stored, hst, hlt, ?_⟩
        rw [foldl_expandDir_allNodes_ne goal cur l _ _ _ hb1 hb3 huntouched, he]
        exact hst
    · have hia : i ≠ a := fun hcon => hanotin (hcon ▸ hil')
      have hv' : isValid (cur.x + dxs.getD i 0) (cur.y + dys.getD i 0) rows cols
          (expandDir rows cols goal cur st a).grid = true := by
        rw [expandDir_grid]
        exact hv
      have hc' : get2d (expandDir rows cols goal cur st a).closed
          (cur.x + dxs.getD i 0) (cur.y + dys.getD i 0) false = false := by
        rw [expandDir_closed]
        exact hc
      have hrect' : Rect rows cols (expandDir rows cols goal cur st a).allNodes :=
        expandDir_rect goal cur st a hrect
      rcases ih (expandDir rows cols goal cur st a) hl8' hnd' hrect' i hil' hv' hc' with
        h | ⟨stored, hst, hlt, hfin⟩
      · exact Or.inl h
      · right
        refine ⟨stored, ?_, hlt, hfin⟩
        rw [← expandDir_allNodes_ne goal cur st a _ _ hb1 hb3
          (targets_ne cur (hl8' i hil') ha8 hia)]
        exact hst

lemma getD_replicate {α : Type} (n : ℕ) (a d : α) (i : ℕ) :
    (List.replicate n a).getD i d = if i < n then a else d := by
  rw [List.getD_eq_getElem?_getD, List.getElem?_replicate]
  split <;> rfl

lemma get2d_replicate {α : Type} (rows cols : ℕ) (v : α) (x y : Int) :
    get2d (List.replicate rows (List.replicate cols v)) x y v = v := by
  unfold get2d
  rw [getD_replicate]
  split
  · rw [getD_replicate]
    split <;> rfl
  · simp

lemma rect_replicate {α : Type} (rows cols : ℕ) (v : α) :
    Rect rows cols (List.replicate rows (List.replicate cols v)) := by
  refine ⟨List.length_replicate _ _, fun row hrow => ?_⟩
  rw [List.eq_of_mem_replicate hrow]
  exact List.length_replicate _ _

lemma isValid_freeGrid {rows cols : ℕ} {grid : List (List Int)}
    (hf : FreeGrid rows cols grid) (x y : Int) :
    isValid x y rows cols grid = true ↔ inB rows cols (x, y) := by
  constructor
  · intro h
    exact isValid_bounds h
  · rintro ⟨h1, h2, h3, h4⟩
    simp only [isValid, Bool.and_eq_true, decide_eq_true_eq, beq_iff_eq]
    refine ⟨⟨⟨⟨h1, h2⟩, h3⟩, h4⟩, ?_⟩
    unfold gridAt
    have hxlt : x.toNat < grid.length := by rw [hf.rows_eq]; omega
    have hrow : grid.getD x.toNat [] ∈ grid := getD_mem_of_lt grid x.toNat [] hxlt
    have hylt : y.toNat < (grid.getD x.toNat []).length := by
      rw [hf.cols_eq _ hrow]; omega
    exact hf.free _ hrow _ (getD_mem_of_lt _ y.toNat 0 hylt)

lemma octD_nonneg (u v : Int × Int) : 0 ≤ octD u v := by
  unfold octD
  exact octN_nonneg _ _

lemma mkNbr_wfg {start goal : Int × Int} {cur : SNode} (hcur : WFG start goal cur)
    (i : ℕ) (hi : i < 8) : WFG start goal (mkNbr goal cur i) :=
  WFG.step cur i hi hcur

lemma ginv_init {rows cols : ℕ} (grid : List (List Int)) (start goal : Int × Int)
    (hs : inB rows cols start) :
    GInv rows cols grid start goal
      { grid := grid,
        closed := List.replicate rows (List.replicate cols false),
        allNodes :=
          set2d (List.replicate rows (List.replicate cols (none : Option SNode)))
            start.1 start.2
            (some (SNode.mk start.1 start.2 [] []
              (heuristicSq start.1 start.2 goal.1 goal.2) none)),
        openList := [SNode.mk start.1 start.2 [] []
          (heuristicSq start.1 start.2 goal.1 goal.2) none] } := by
  obtain ⟨hs1, hs2, hs3, hs4⟩ := hs
  have hrect0 : Rect rows cols
      (List.replicate rows (List.replicate cols (none : Option SNode))) :=
    rect_replicate _ _ _
  have hrecS : get2d (set2d (List.replicate rows (List.replicate cols
        (none : Option SNode))) start.1 start.2
        (some (SNode.mk start.1 start.2 [] []
          (heuristicSq start.1 start.2 goal.1 goal.2) none)))
      start.1 start.2 none =
      some (SNode.mk start.1 start.2 [] []
        (heuristicSq start.1 start.2 goal.1 goal.2) none) :=
    get2d_rect_self hrect0 _ _ _ _ hs1 hs2 hs3 hs4
  have hrecO : ∀ x y : Int, 0 ≤ x → 0 ≤ y → ¬(x = start.1 ∧ y = start.2) →
      get2d (set2d (List.replicate rows (List.replicate cols
          (none : Option SNode))) start.1 start.2
          (some (SNode.mk start.1 start.2 [] []
            (heuristicSq start.1 start.2 goal.1 goal.2) none)))
        x y none = none := by
    intro x y hx hy hne
    rw [get2d_set2d_ne _ _ _ _ _ _ _ hs1 hs3 hx hy hne]
    exact get2d_replicate _ _ _ _ _
  refine ⟨rfl, rect_replicate _ _ _, set2d_rect _ _ _ hrect0, ?_, ?_, ?_, ?_, ?_, ?_⟩
  · intro n hn
    obtain rfl := List.mem_singleton.mp hn
    exact ⟨WFG.root, hs1, hs2, hs3, hs4⟩
  · intro x y hx hy nd hnd
    by_cases hxy : x = start.1 ∧ y = start.2
    · obtain ⟨rfl, rfl⟩ := hxy
      rw [hrecS] at hnd
      obtain rfl := Option.some.inj hnd
      exact ⟨WFG.root, rfl, rfl, hs1, hs2, hs3, hs4⟩
    · rw [hrecO x y hx hy hxy] at hnd
      cases hnd
  · intro x y hx hy _ nd hnd
    by_cases hxy : x = start.1 ∧ y = start.2
    · obtain ⟨rfl, rfl⟩ := hxy
      rw [hrecS] at hnd
      obtain rfl := Option.some.inj hnd
      exact List.mem_singleton.mpr rfl
    · rw [hrecO x y hx hy hxy] at hnd
      cases hnd
  · intro _
    exact ⟨_, hrecS, rfl, rfl⟩
  · intro x y _ hcl
    rw [get2d_replicate] at hcl
    cases hcl
  · exact get2d_replicate _ _ _ _ _

lemma ginv_open_bound {rows cols : ℕ} {grid : List (List Int)}
    {start goal : Int × Int} (hs : inB rows cols start) {st : AState}
    (hinv : GInv rows cols grid start goal st) (c : Int × Int)
    (hc : inB rows cols c) (hcu : get2d st.closed c.1 c.2 false = false) :
    ∃ nd ∈ st.openList, costVal nd.f ≤ octD start c + eucD c goal := by
  classical
  have hPex : ∃ t, get2d st.closed (cpath start c t).1 (cpath start c t).2
      false = false := ⟨octSteps start c, by rw [cpath_last]; exact hcu⟩
  have hP0 : get2d st.closed (cpath start c (Nat.find hPex)).1
      (cpath start c (Nat.find hPex)).2 false = false := Nat.find_spec hPex
  have hle : Nat.find hPex ≤ octSteps start c :=
    Nat.find_le (by rw [cpath_last]; exact hcu)
  rcases hfind : Nat.find hPex with _ | t
  · rw [hfind, cpath_zero] at hP0
    obtain ⟨nd, hrec, hg, hfnil⟩ := hinv.start_rec hP0
    obtain ⟨hs1, _, hs3, _⟩ := hs
    refine ⟨nd, hinv.rec_open start.1 start.2 hs1 hs3 hP0 nd hrec, ?_⟩
    rw [hfnil, costVal_nil]
    have := octD_nonneg start c
    have := eucD_nonneg c goal
    linarith
  · rw [hfind] at hP0 hle
    have ht : t < octSteps start c := by omega
    have hclosed_t : get2d st.closed (cpath start c t).1 (cpath start c t).2
        false = true := by
      cases hb : get2d st.closed (cpath start c t).1 (cpath start c t).2 false with
      | false => exact absurd hb (Nat.find_min hPex (by rw [hfind]; omega))
      | true => rfl
    have hin_t : inB rows cols (cpath start c t) := cpath_inB rows cols start c hs hc t
    have hin_t1 : inB rows cols (cpath start c (t + 1)) :=
      cpath_inB rows cols start c hs hc (t + 1)
    obtain ⟨i, hi8, hxi, hyi⟩ := cpath_step_adj start c t ht
    have hfr := hinv.frontier (cpath start c t).1 (cpath start c t).2 hin_t
      hclosed_t i hi8 (by rw [← hxi, ← hyi]; exact hin_t1)
    rw [← hxi, ← hyi] at hfr
    rcases hfr with hcl1 | ⟨nd, hrec, hbound⟩
    · rw [hP0] at hcl1
      cases hcl1
    · have hnn1 : (0 : Int) ≤ (cpath start c (t + 1)).1 := hin_t1.1
      have hnn2 : (0 : Int) ≤ (cpath start c (t + 1)).2 := hin_t1.2.2.1
      refine ⟨nd, hinv.rec_open _ _ hnn1 hnn2 hP0 nd hrec, ?_⟩
      obtain ⟨hwf, hndx, hndy, _⟩ := hinv.rec_wf _ _ hnn1 hnn2 nd hrec
      have hfle : costVal nd.f ≤ costVal nd.g +
          Real.sqrt ((nd.hRad : ℕ) : ℝ) := hwf.f_le
      have hrad : Real.sqrt ((nd.hRad : ℕ) : ℝ) =
          eucD (cpath start c (t + 1)) goal := by
        rw [hwf.hRad_eq, hndx, hndy]
        rfl
      have hstep : Real.sqrt ((heuristicSq (cpath start c t).1 (cpath start c t).2
          (cpath start c (t + 1)).1 (cpath start c (t + 1)).2 : ℕ) : ℝ) =
          eucD (cpath start c t) (cpath start c (t + 1)) := rfl
      rw [hstep] at hbound
      have hsucc := octD_cpath_succ start c t ht
      have hsplit := octD_cpath_split start c (t + 1)
      have htri := eucD_triangle (cpath start c (t + 1)) c goal
      have hoct := eucD_le_octD (cpath start c (t + 1)) c
      rw [hrad] at hfle
      have hDt : octD start ((cpath start c t).1, (cpath start c t).2) =
          octD start (cpath start c t) := rfl
      rw [hDt] at hbound
      linarith

lemma ginv_open_ne_nil {rows cols : ℕ} {grid : List (List Int)}
    {start goal : Int × Int} (hs : inB rows cols start) (hg : inB rows cols goal)
    {st : AState} (hinv : GInv rows cols grid start goal st) :
    st.openList ≠ [] := by
  obtain ⟨nd, hnd, _⟩ := ginv_open_bound hs hinv goal hg hinv.goal_open
  intro hcon
  rw [hcon] at hnd
  exact List.not_mem_nil nd hnd

lemma pop_g_bound {rows cols : ℕ} {grid : List (List Int)}
    {start goal : Int × Int} (hs : inB rows cols start) {st : AState}
    (hinv : GInv rows cols grid start goal st) {cur : SNode} {rest : List SNode}
    (hext : extractMin st.openList = some (cur, rest))
    (hcu : get2d st.closed cur.x cur.y false = false)
    (hcin : inB rows cols (cur.x, cur.y)) :
    costVal cur.g ≤ octD start (cur.x, cur.y) := by
  obtain ⟨nd, hnd_open, hnd_bound⟩ :=
    ginv_open_bound hs hinv (cur.x, cur.y) hcin hcu
  have hminf : costVal cur.f ≤ costVal nd.f :=
    extractMin_min hext
      (fun x hx => ((hinv.wf_open x hx).1).normOk_f) nd hnd_open
  have hcur_wf := (hinv.wf_open cur (extractMin_mem hext)).1
  rcases hcur_wf.f_shape with hfs | ⟨_, hg0⟩
  · have hfeq : costVal cur.f = costVal cur.g +
        Real.sqrt ((cur.hRad : ℕ) : ℝ) := by
      rw [hfs, costVal_concat]
    have hrad : Real.sqrt ((cur.hRad : ℕ) : ℝ) = eucD (cur.x, cur.y) goal := by
      rw [hcur_wf.hRad_eq]
      rfl
    rw [hrad] at hfeq
    linarith
  · rw [hg0, costVal_nil]
    exact octD_nonneg _ _

lemma mkNbr_parts (goal : Int × Int) (cur : SNode) (i : ℕ) :
    (mkNbr goal cur i).f = (mkNbr goal cur i).g ++ [(mkNbr goal cur i).hRad] := rfl

lemma mkNbr_g (goal : Int × Int) (cur : SNode) (i : ℕ) :
    (mkNbr goal cur i).g =
      cur.g ++
        [heuristicSq cur.x cur.y (cur.x + dxs.getD i 0) (cur.y + dys.getD i 0)] := rfl

lemma mkNbr_hRad (goal : Int × Int) (cur : SNode) (i : ℕ) :
    (mkNbr goal cur i).hRad =
      heuristicSq (cur.x + dxs.getD i 0) (cur.y + dys.getD i 0) goal.1 goal.2 := rfl

lemma ginv_step {rows cols : ℕ} {grid : List (List Int)} {start goal : Int × Int}
    (hf : FreeGrid rows cols grid) (hs : inB rows cols start)
    (hg : inB rows cols goal)
    {G : List (List Int)} {C : List (List Bool)} {A : List (List (Option SNode))}
    {O : List SNode}
    (hinv : GInv rows cols grid start goal ⟨G, C, A, O⟩)
    {cur : SNode} {rest : List SNode}
    (hext : extractMin O = some (cur, rest))
    (hng : ¬(cur.x = goal.1 ∧ cur.y = goal.2)) :
    GInv rows cols grid start goal
      (expandAll rows cols goal cur ⟨G, set2d C cur.x cur.y true, A, rest⟩) := by
  classical
  have hcur := hinv.wf_open cur (extractMin_mem hext)
  have hcwf : WFG start goal cur := hcur.1
  have hc1 : (0 : Int) ≤ cur.x := hcur.2.1
  have hc2 : cur.x < (rows : Int) := hcur.2.2.1
  have hc3 : (0 : Int) ≤ cur.y := hcur.2.2.2.1
  have hc4 : cur.y < (cols : Int) := hcur.2.2.2.2
  have hperm := extractMin_perm hext
  have hrange8 : ∀ j ∈ List.range 8, j < 8 := fun j hj => List.mem_range.mp hj
  have hnd8 : (List.range 8).Nodup := List.nodup_range 8
  have hrectC : Rect rows cols C := hinv.rect_closed
  have hrectA : Rect rows cols A := hinv.rect_nodes
  have hGeq : G = grid := hinv.grid_eq
  have hrectC1 : Rect rows cols (set2d C cur.x cur.y true) :=
    set2d_rect _ _ _ hrectC
  simp only [expandAll]
  set F := (List.range 8).foldl (expandDir rows cols goal cur)
    (⟨G, set2d C cur.x cur.y true, A, rest⟩ : AState) with hF
  have hFclosed : F.closed = set2d C cur.x cur.y true := by
    rw [hF]
    exact foldl_expandDir_closed goal cur (List.range 8) _
  have hFgrid : F.grid = G := by
    rw [hF]
    exact foldl_expandDir_grid rows cols goal cur (List.range 8) _
  have hFrectA : Rect rows cols F.allNodes := by
    rw [hF]
    exact foldl_expandDir_rect goal cur (List.range 8) _ hrectA
  have hFopen_sup : ∀ n ∈ rest, n ∈ F.openList := by
    intro n hn
    rw [hF]
    exact foldl_expandDir_open_sup goal cur (List.range 8) _ n hn
  have hFopen_new : ∀ n ∈ F.openList, n ∈ rest ∨ ∃ i ∈ List.range 8,
      n = mkNbr goal cur i ∧
      isValid (cur.x + dxs.getD i 0) (cur.y + dys.getD i 0) rows cols G = true := by
    intro n hn
    rw [hF] at hn
    exact foldl_expandDir_open_new goal cur (List.range 8) _ n hn
  have hFdesc : ∀ x y : Int, 0 ≤ x → 0 ≤ y →
      get2d F.allNodes x y none = get2d A x y none ∨
      ∃ i ∈ List.range 8, x = cur.x + dxs.getD i 0 ∧ y = cur.y + dys.getD i 0 ∧
        isValid x y rows cols G = true ∧
        get2d F.allNodes x y none = some (mkNbr goal cur i) ∧
        mkNbr goal cur i ∈ F.openList ∧
        (get2d A x y none = none ∨ ∃ stored, get2d A x y none = some stored ∧
          ltCost (mkNbr goal cur i).f stored.f = true) := by
    intro x y hx hy
    rw [hF]
    exact foldl_expandDir_desc goal cur (List.range 8) _ hrange8 hnd8 hrectA x y hx hy
  have hFcov : ∀ i ∈ List.range 8,
      isValid (cur.x + dxs.getD i 0) (cur.y + dys.getD i 0) rows cols G = true →
      get2d (set2d C cur.x cur.y true) (cur.x + dxs.getD i 0)
        (cur.y + dys.getD i 0) false = false →
      (get2d F.allNodes (cur.x + dxs.getD i 0) (cur.y + dys.getD i 0) none =
          some (mkNbr goal cur i) ∧
        mkNbr goal cur i ∈ F.openList) ∨
      (∃ stored, get2d A (cur.x + dxs.getD i 0) (cur.y + dys.getD i 0) none =
          some stored ∧
        ltCost (mkNbr goal cur i).f stored.f = false ∧
        get2d F.allNodes (cur.x + dxs.getD i 0) (cur.y + dys.getD i 0) none =
          some stored) := by
    intro i hi hv hc
    rw [hF]
    exact foldl_expandDir_coverage goal cur (List.range 8) _ hrange8 hnd8 hrectA i hi hv hc
  have hcl_at : ∀ x y : Int, 0 ≤ x → 0 ≤ y → ¬(x = cur.x ∧ y = cur.y) →
      get2d (set2d C cur.x cur.y true) x y false = get2d C x y false :=
    fun x y hx hy hne => get2d_set2d_ne _ _ _ _ _ _ _ hc1 hc3 hx hy hne
  have hcl_cur : get2d (set2d C cur.x cur.y true) cur.x cur.y false = true :=
    get2d_rect_self hrectC _ _ _ _ hc1 hc2 hc3 hc4
  have hmemO : ∀ n ∈ rest, n ∈ O :=
    fun n hn => (hperm.mem_iff).mpr (List.mem_cons_of_mem _ hn)
  refine ⟨?_, ?_, ?_, ?_, ?_, ?_, ?_, ?_, ?_⟩
  · rw [hFgrid]
    exact hGeq
  · rw [hFclosed]
    exact hrectC1
  · exact hFrectA
  · intro n hn
    rcases hFopen_new n hn with hr | ⟨i, hi, rfl, hvi⟩
    · exact hinv.wf_open n (hmemO n hr)
    · refine ⟨mkNbr_wfg hcwf i (List.mem_range.mp hi), ?_⟩
      have hb := isValid_bounds hvi
      exact ⟨hb.1, hb.2.1, hb.2.2.1, hb.2.2.2⟩
  · intro x y hx hy nd hnd
    rcases hFdesc x y hx hy with hsame | ⟨i, hi, hxi, hyi, hvi, hrecF, _, _⟩
    · rw [hsame] at hnd
      exact hinv.rec_wf x y hx hy nd hnd
    · rw [hrecF] at hnd
      obtain rfl := Option.some.inj hnd
      have hb := isValid_bounds hvi
      exact ⟨mkNbr_wfg hcwf i (List.mem_range.mp hi), hxi.symm, hyi.symm,
        hb.1, hb.2.1, hb.2.2.1, hb.2.2.2⟩
  · intro x y hx hy hclF nd hnd
    rw [hFclosed] at hclF
    have hne_cur : ¬(x = cur.x ∧ y = cur.y) := by
      rintro ⟨rfl, rfl⟩
      rw [hcl_cur] at hclF
      cases hclF
    rw [hcl_at x y hx hy hne_cur] at hclF
    rcases hFdesc x y hx hy with hsame | ⟨i, hi, hxi, hyi, hvi, hrecF, hopenF, _⟩
    · rw [hsame] at hnd
      have hndO := hinv.rec_open x y hx hy hclF nd hnd
      rcases List.mem_cons.mp ((hperm.mem_iff).mp hndO) with rfl | hrest
      · have hw := hinv.rec_wf x y hx hy _ hnd
        exact absurd ⟨hw.2.1.symm, hw.2.2.1.symm⟩ hne_cur
      · exact hFopen_sup nd hrest
    · rw [hrecF] at hnd
      obtain rfl := Option.some.inj hnd
      exact hopenF
  · intro hclF
    rw [hFclosed] at hclF
    have hne_cur : ¬(start.1 = cur.x ∧ start.2 = cur.y) := by
      rintro ⟨h1, h2⟩
      rw [h1, h2, hcl_cur] at hclF
      cases hclF
    rw [hcl_at start.1 start.2 hs.1 hs.2.2.1 hne_cur] at hclF
    obtain ⟨nd, hrec, hgnil, hfnil⟩ := hinv.start_rec hclF
    rcases hFdesc start.1 start.2 hs.1 hs.2.2.1 with
      hsame | ⟨i, hi, hxi, hyi, hvi, hrecF, hopenF, hcnd⟩
    · exact ⟨nd, by rw [hsame]; exact hrec, hgnil, hfnil⟩
    · exfalso
      rcases hcnd with hnone | ⟨stored, hst, hlt⟩
      · rw [hrec] at hnone
        cases hnone
      · rw [hrec] at hst
        obtain rfl := Option.some.inj hst
        rw [hfnil] at hlt
        have hnOk : NormOk (mkNbr goal cur i).f :=
          (mkNbr_wfg hcwf i (List.mem_range.mp hi)).normOk_f
        have hv0 := (ltCost_spec hnOk (by simp [NormOk])).mp hlt
        rw [costVal_nil] at hv0
        exact absurd hv0 (not_lt.mpr (costVal_nonneg _))
  · intro x y hxyin hclT i hi8 hvin
    rw [hFclosed] at hclT
    rw [hFclosed]
    cases hC_xy : get2d C x y false with
    | true =>
      rcases hinv.frontier x y hxyin hC_xy i hi8 hvin with hvT | ⟨nd, hrec, hbnd⟩
      · left
        by_cases hvcur : x + dxs.getD i 0 = cur.x ∧ y + dys.getD i 0 = cur.y
        · rw [hvcur.1, hvcur.2]
          exact hcl_cur
        · rw [hcl_at _ _ hvin.1 hvin.2.2.1 hvcur]
          exact hvT
      · right
        rcases hFdesc (x + dxs.getD i 0) (y + dys.getD i 0) hvin.1 hvin.2.2.1 with
          hsame | ⟨j, hj, hxj, hyj, hvj, hrecF, hopenF, hcnd⟩
        · exact ⟨nd, by rw [hsame]; exact hrec, hbnd⟩
        · refine ⟨mkNbr goal cur j, hrecF, ?_⟩
          rcases hcnd with hnone | ⟨stored, hst, hlt⟩
          · rw [hrec] at hnone
            cases hnone
          · rw [hrec] at hst
            obtain rfl := Option.some.inj hst
            have hj8 := List.mem_range.mp hj
            have hmw : WFG start goal (mkNbr goal cur j) := mkNbr_wfg hcwf j hj8
            have hndw := hinv.rec_wf _ _ hvin.1 hvin.2.2.1 nd hrec
            have hltv := (ltCost_spec hmw.normOk_f hndw.1.normOk_f).mp hlt
            have hmf : costVal (mkNbr goal cur j).f = costVal (mkNbr goal cur j).g +
                Real.sqrt (((mkNbr goal cur j).hRad : ℕ) : ℝ) := by
              rw [mkNbr_parts, costVal_concat]
            have hhad : (mkNbr goal cur j).hRad =
                heuristicSq (x + dxs.getD i 0) (y + dys.getD i 0) goal.1 goal.2 := by
              rw [mkNbr_hRad, ← hxj, ← hyj]
            rcases hndw.1.f_shape with hfs | ⟨hf0, hg0⟩
            · have hne2 : costVal nd.f = costVal nd.g +
                  Real.sqrt ((nd.hRad : ℕ) : ℝ) := by
                rw [hfs, costVal_concat]
              have hndh : nd.hRad =
                  heuristicSq (x + dxs.getD i 0) (y + dys.getD i 0) goal.1 goal.2 := by
                rw [hndw.1.hRad_eq, hndw.2.1, hndw.2.2.1]
              rw [hhad] at hmf
              rw [hndh] at hne2
              linarith
            · rw [hf0, costVal_nil] at hltv
              exact absurd hltv (not_lt.mpr (costVal_nonneg _))
    | false =>
      have hxy_cur : x = cur.x ∧ y = cur.y := by
        by_contra hne
        rw [hcl_at x y hxyin.1 hxyin.2.2.1 hne, hC_xy] at hclT
        cases hclT
      obtain ⟨rfl, rfl⟩ := hxy_cur
      have hcrux : costVal cur.g ≤ octD start (cur.x, cur.y) :=
        pop_g_bound hs hinv hext hC_xy hcur.2
      have hvE : isValid (cur.x + dxs.getD i 0) (cur.y + dys.getD i 0)
          rows cols G = true := by
        rw [hGeq]
        exact (isValid_freeGrid hf _ _).mpr hvin
      cases hvc : get2d (set2d C cur.x cur.y true) (cur.x + dxs.getD i 0)
          (cur.y + dys.getD i 0) false with
      | true =>
        left
        rfl
      | false =>
        rcases hFcov i (List.mem_range.mpr hi8) hvE hvc with
          ⟨hrecF, hopenF⟩ | ⟨stored, hstA, hltF, hstF⟩
        · right
          refine ⟨mkNbr goal cur i, hrecF, ?_⟩
          rw [mkNbr_g, costVal_concat]
          linarith [hcrux]
        · right
          refine ⟨stored, hstF, ?_⟩
          have hsw := hinv.rec_wf _ _ hvin.1 hvin.2.2.1 stored hstA
          have hmw : WFG start goal (mkNbr goal cur i) := mkNbr_wfg hcwf i hi8
          have hnle : costVal stored.f ≤ costVal (mkNbr goal cur i).f := by
            by_contra hcon
            push_neg at hcon
            rw [(ltCost_spec hmw.normOk_f hsw.1.normOk_f).mpr hcon] at hltF
            cases hltF
          have hmf : costVal (mkNbr goal cur i).f = (costVal cur.g +
              Real.sqrt ((heuristicSq cur.x cur.y (cur.x + dxs.getD i 0)
                (cur.y + dys.getD i 0) : ℕ) : ℝ)) +
              Real.sqrt ((heuristicSq (cur.x + dxs.getD i 0) (cur.y + dys.getD i 0)
                goal.1 goal.2 : ℕ) : ℝ) := by
            rw [mkNbr_parts, costVal_concat, mkNbr_g, costVal_concat, mkNbr_hRad]
          rcases hsw.1.f_shape with hfs | ⟨hf0, hg0⟩
          · have hse : costVal stored.f = costVal stored.g +
                Real.sqrt ((stored.hRad : ℕ) : ℝ) := by
              rw [hfs, costVal_concat]
            have hsh : stored.hRad = heuristicSq (cur.x + dxs.getD i 0)
                (cur.y + dys.getD i 0) goal.1 goal.2 := by
              rw [hsw.1.hRad_eq, hsw.2.1, hsw.2.2.1]
            rw [hsh] at hse
            linarith
          · rw [hg0, costVal_nil]
            have h1 := octD_nonneg start (cur.x, cur.y)
            have h2 := Real.sqrt_nonneg ((heuristicSq cur.x cur.y
              (cur.x + dxs.getD i 0) (cur.y + dys.getD i 0) : ℕ) : ℝ)
            linarith
  · rw [hFclosed]
    have hne : ¬(goal.1 = cur.x ∧ goal.2 = cur.y) := by
      rintro ⟨h1, h2⟩
      exact hng ⟨h1.symm, h2.symm⟩
    rw [hcl_at goal.1 goal.2 hg.1 hg.2.2.1 hne]
    exact hinv.goal_open

lemma aLoop_ginv {rows cols : ℕ} {grid : List (List Int)} {start goal : Int × Int}
    (hf : FreeGrid rows cols grid) (hs : inB rows cols start)
    (hg : inB rows cols goal) :
    ∀ (fuel : ℕ) (st : AState), GInv rows cols grid start goal st →
      ((aLoop rows cols goal fuel st).1 = none →
        (aLoop rows cols goal fuel st).2.openList ≠ []) ∧
      (∀ gn, (aLoop rows cols goal fuel st).1 = some gn →
        WFG start goal gn ∧ gn.x = goal.1 ∧ gn.y = goal.2 ∧
        costVal gn.g ≤ octD start goal) := by
  intro fuel
  induction fuel with
  | zero =>
    intro st hinv
    constructor
    · intro _
      exact ginv_open_ne_nil hs hg hinv
    · intro gn hgn
      simp [aLoop] at hgn
  | succ k ih =>
    intro st hinv
    rw [aLoop]
    cases hext : extractMin st.openList with
    | none =>
      exact absurd (extractMin_eq_none.mp hext) (ginv_open_ne_nil hs hg hinv)
    | some pr =>
      obtain ⟨cur, rest⟩ := pr
      dsimp only
      by_cases hcond : (cur.x = goal.1 && cur.y = goal.2) = true
      · rw [if_pos hcond]
        simp only [Bool.and_eq_true, decide_eq_true_eq] at hcond
        constructor
        · intro hno
          exact absurd hno (by simp)
        · intro gn hgn
          obtain rfl := Option.some.inj hgn
          have hw := hinv.wf_open cur (extractMin_mem hext)
          have hcu : get2d st.closed cur.x cur.y false = false := by
            rw [hcond.1, hcond.2]
            exact hinv.goal_open
          have hb := pop_g_bound hs hinv hext hcu hw.2
          have hDeq : octD start (cur.x, cur.y) = octD start goal := by
            rw [hcond.1, hcond.2]
          exact ⟨hw.1, hcond.1, hcond.2, by rw [← hDeq]; exact hb⟩
      · rw [if_neg hcond]
        simp only [Bool.and_eq_true, decide_eq_true_eq] at hcond
        exact ih _ (ginv_step hf hs hg hinv hext hcond)

lemma sqrt2_lin_inj {o d p q : ℕ}
    (h : (o : ℝ) + (d : ℝ) * Real.sqrt 2 = (p : ℝ) + (q : ℝ) * Real.sqrt 2) :
    o = p ∧ d = q := by
  by_cases hd : d = q
  · subst hd
    have ho : (o : ℝ) = (p : ℝ) := by linarith
    exact ⟨Nat.cast_injective ho, rfl⟩
  · exfalso
    have hne : (d : ℝ) - (q : ℝ) ≠ 0 := by
      intro hcon
      exact hd (Nat.cast_injective (by linarith : (d : ℝ) = (q : ℝ)))
    apply irrational_sqrt_two
    refine ⟨((p : ℚ) - (o : ℚ)) / ((d : ℚ) - (q : ℚ)), ?_⟩
    push_cast
    rw [div_eq_iff hne]
    linarith

lemma costVal_steps_form : ∀ (c : Cost), (∀ m ∈ c, m = 1 ∨ m = 2) →
    ∃ o d : ℕ, costVal c = (o : ℝ) + (d : ℝ) * Real.sqrt 2 ∧ c.length = o + d := by
  intro c
  induction c with
  | nil =>
    intro _
    exact ⟨0, 0, by norm_num [costVal_nil], rfl⟩
  | cons a c ih =>
    intro hmem
    obtain ⟨o, d, hval, hlen⟩ := ih (fun m hm => hmem m (List.mem_cons_of_mem _ hm))
    rcases hmem a (List.mem_cons_self _ _) with rfl | rfl
    · refine ⟨o + 1, d, ?_, by rw [List.length_cons, hlen]; omega⟩
      rw [costVal_cons, hval]
      push_cast
      rw [Real.sqrt_one]
      ring
    · refine ⟨o, d + 1, ?_, by rw [List.length_cons, hlen]; omega⟩
      rw [costVal_cons, hval]
      push_cast
      ring

/-- C4: on an obstacle-free grid with in-bounds start and goal, the search is
    diagonal-move optimal: any path it returns has node count
    `max(|goal.row - start.row|, |goal.col - start.col|) + 1`, and the loop can
    never terminate by exhausting the open set on such inputs (the returned
    path is non-empty whenever the loop is run to completion), because the
    Euclidean heuristic is consistent on the obstacle-free grid even though
    closed cells are never reopened. -/
theorem c4_obstacle_free_optimal_node_count (fuel : ℕ) (grid : List (List Int))
    (start goal : Int × Int)
    (hcols : ∀ row ∈ grid, row.length = (grid.headD []).length)
    (hfree : ∀ row ∈ grid, ∀ v ∈ row, v = 0)
    (hs : inB grid.length (grid.headD []).length start)
    (hg : inB grid.length (grid.headD []).length goal) :
    (aStarSearch fuel grid start goal ≠ [] →
      (aStarSearch fuel grid start goal).length =
        max (goal.1 - start.1).natAbs (goal.2 - start.2).natAbs + 1) ∧
    (∀ st', aLoop grid.length (grid.headD []).length goal fuel
        { grid := grid,
          closed := List.replicate grid.length
            (List.replicate (grid.headD []).length false),
          allNodes :=
            set2d (List.replicate grid.length
              (List.replicate (grid.headD []).length (none : Option SNode)))
              start.1 start.2
              (some (SNode.mk start.1 start.2 [] []
                (heuristicSq start.1 start.2 goal.1 goal.2) none)),
          openList := [SNode.mk start.1 start.2 [] []
            (heuristicSq start.1 start.2 goal.1 goal.2) none] } = (none, st') →
      st'.openList ≠ []) := by
  have hf : FreeGrid grid.length (grid.headD []).length grid := ⟨rfl, hcols, hfree⟩
  have hinit := @ginv_init grid.length (grid.headD []).length grid start goal hs
  have hmain := aLoop_ginv hf hs hg fuel _ hinit
  constructor
  · intro hne
    unfold aStarSearch at hne ⊢
    dsimp only at hne ⊢
    cases hres : (aLoop grid.length (grid.headD []).length goal fuel
        { grid := grid,
          closed := List.replicate grid.length
            (List.replicate (grid.headD []).length false),
          allNodes :=
            set2d (List.replicate grid.length
              (List.replicate (grid.headD []).length (none : Option SNode)))
              start.1 start.2
              (some (SNode.mk start.1 start.2 [] []
                (heuristicSq start.1 start.2 goal.1 goal.2) none)),
          openList := [SNode.mk start.1 start.2 [] []
            (heuristicSq start.1 start.2 goal.1 goal.2) none] }).1 with
    | none => rw [hres] at hne; simp at hne
    | some gn =>
      dsimp only at hne ⊢
      obtain ⟨hwfg, hgx, hgy, hub⟩ := hmain.2 gn hres
      have hlb : octD start (gn.x, gn.y) ≤ costVal gn.g := hwfg.g_lower
      have hlb2 : octD start goal ≤ costVal gn.g := by
        rw [hgx, hgy] at hlb
        exact hlb
      have heqv : costVal gn.g = octD start goal := le_antisymm hub hlb2
      obtain ⟨o, d, hform, hlen⟩ := costVal_steps_form gn.g hwfg.g_steps
      have hoct : octD start goal =
          ((max (goal.1 - start.1).natAbs (goal.2 - start.2).natAbs -
            min (goal.1 - start.1).natAbs (goal.2 - start.2).natAbs : ℕ) : ℝ) +
          ((min (goal.1 - start.1).natAbs (goal.2 - start.2).natAbs : ℕ) : ℝ) *
            Real.sqrt 2 := by
        rw [octD_start_goal]
        unfold octN
        rw [Nat.cast_min]
      have hkey : (o : ℝ) + (d : ℝ) * Real.sqrt 2 =
          ((max (goal.1 - start.1).natAbs (goal.2 - start.2).natAbs -
            min (goal.1 - start.1).natAbs (goal.2 - start.2).natAbs : ℕ) : ℝ) +
          ((min (goal.1 - start.1).natAbs (goal.2 - start.2).natAbs : ℕ) : ℝ) *
            Real.sqrt 2 := by
        rw [← hform, heqv, hoct]
      obtain ⟨ho, hd⟩ := sqrt2_lin_inj hkey
      have hglen : gn.g.length =
          max (goal.1 - start.1).natAbs (goal.2 - start.2).natAbs := by
        rw [hlen, ho, hd]
        omega
      rw [hwfg.path_len, hglen]
  · intro st' hres
    have hop := hmain.1 (by rw [hres])
    rw [hres] at hop
    exact hop

theorem c4_obstacle_free_optimal_node_count_witness :
    (aStarSearch 3 [[0, 0], [0, 0]] (0, 0) (1, 1)).length =
      max (((1, 1) : Int × Int).1 - ((0, 0) : Int × Int).1).natAbs
        (((1, 1) : Int × Int).2 - ((0, 0) : Int × Int).2).natAbs + 1 :=
  (c4_obstacle_free_optimal_node_count 3 [[0, 0], [0, 0]] (0, 0) (1, 1)
    (by decide) (by decide) (by unfold inB; decide) (by unfold inB; decide)).1
    (by decide)

end AStar
